import Mathlib

/-!
Verification development for the sensorbee static-topology core and the
grouping/aggregation execution operator.

The Go sources embedded here:
  * `bql/execution/groupby_execution_plan.go` — the grouping operator
    (`performQueryOnBuffer` with its local closures `findOrCreateGroup`,
    `evalItem`, `evalGroup`, `evalNoGroup`).
  * `core` (static topology) — `defaultStaticTopology.Run`/`Stop`/`Wait`,
    `staticNode.run`, `staticDestinations.Write`/`Close`.

Modelling conventions:
  * Go machine values become Lean values: `data.Value` is a tagged sum,
    `data.Map` an insertion-ordered association list (per the spec's Map
    contract), errors are `Option String` / `Except String`.
  * Mutation of the plan object becomes explicit state passing; a function
    that in Go mutates `ep` and returns `error` here returns
    `PlanState × Option String`.
  * Go slice aliasing (the `prevResults`/`curResults`/`output` juggling) is
    modelled by tagging each result slice with the identity of its backing
    array (`RSlice.backing`); `append` keeps the tag, slice truncation
    `s[0:0]` keeps the tag and empties the elements.
  * `data.Hash` is not part of the sources; the operator is parametric in a
    hash function `hashFn`, exactly as the code is parametric in `data.Hash`.
  * Deep copy (`Map.Copy`, `Tuple.Copy`) is the identity on immutable Lean
    values; where copy identity matters (the fanout), tuples carry an
    explicit identity tag.
-/

namespace SensorBee

/-- Value is the tagged sum of tuple values (`data.Value`): Null, Bool, Int,
String, Array, Map.  Blob/Float/Timestamp do not occur in the embedded code
paths and are omitted; no claim distinguishes them from String. -/
inductive Value where
  | null : Value
  | bool (b : Bool) : Value
  | int (i : Int) : Value
  | str (s : String) : Value
  | array (elems : List Value) : Value
  | map (entries : List (String × Value)) : Value

mutual

/-- Decidable canonical equality on values (`data.Equal`): deep structural
equality of the tagged sum. -/
def Value.decEq : (a b : Value) → Decidable (a = b)
  | .null, .null => isTrue rfl
  | .bool a, .bool b =>
      if h : a = b then isTrue (by rw [h])
      else isFalse (fun hh => h (by injection hh))
  | .int a, .int b =>
      if h : a = b then isTrue (by rw [h])
      else isFalse (fun hh => h (by injection hh))
  | .str a, .str b =>
      if h : a = b then isTrue (by rw [h])
      else isFalse (fun hh => h (by injection hh))
  | .array xs, .array ys =>
      match Value.decEqList xs ys with
      | isTrue h => isTrue (by rw [h])
      | isFalse h => isFalse (fun hh => h (by injection hh))
  | .map xs, .map ys =>
      match Value.decEqEntries xs ys with
      | isTrue h => isTrue (by rw [h])
      | isFalse h => isFalse (fun hh => h (by injection hh))
  | .null, .bool _ | .null, .int _ | .null, .str _ | .null, .array _
  | .null, .map _ | .bool _, .null | .bool _, .int _ | .bool _, .str _
  | .bool _, .array _ | .bool _, .map _ | .int _, .null | .int _, .bool _
  | .int _, .str _ | .int _, .array _ | .int _, .map _ | .str _, .null
  | .str _, .bool _ | .str _, .int _ | .str _, .array _ | .str _, .map _
  | .array _, .null | .array _, .bool _ | .array _, .int _ | .array _, .str _
  | .array _, .map _ | .map _, .null | .map _, .bool _ | .map _, .int _
  | .map _, .str _ | .map _, .array _ => isFalse (fun h => Value.noConfusion h)

/-- Decidable equality of value lists, by elementwise `Value.decEq`. -/
def Value.decEqList : (a b : List Value) → Decidable (a = b)
  | [], [] => isTrue rfl
  | [], _ :: _ => isFalse (fun h => List.noConfusion h)
  | _ :: _, [] => isFalse (fun h => List.noConfusion h)
  | x :: xs, y :: ys =>
      match Value.decEq x y, Value.decEqList xs ys with
      | isTrue h1, isTrue h2 => isTrue (by rw [h1, h2])
      | isFalse h1, _ => isFalse (fun h => by
          injection h with hh ht
          exact h1 hh)
      | _, isFalse h2 => isFalse (fun h => by
          injection h with hh ht
          exact h2 ht)

/-- Decidable equality of map entry lists, by keywise and valuewise
comparison. -/
def Value.decEqEntries : (a b : List (String × Value)) → Decidable (a = b)
  | [], [] => isTrue rfl
  | [], _ :: _ => isFalse (fun h => List.noConfusion h)
  | _ :: _, [] => isFalse (fun h => List.noConfusion h)
  | (k, v) :: xs, (k', v') :: ys =>
      match String.decEq k k', Value.decEq v v', Value.decEqEntries xs ys with
      | isTrue h1, isTrue h2, isTrue h3 => isTrue (by rw [h1, h2, h3])
      | isFalse h1, _, _ => isFalse (fun h => by
          injection h with hh ht
          exact h1 (congrArg Prod.fst hh))
      | _, isFalse h2, _ => isFalse (fun h => by
          injection h with hh ht
          exact h2 (congrArg Prod.snd hh))
      | _, _, isFalse h3 => isFalse (fun h => by
          injection h with hh ht
          exact h3 ht)

end

instance : DecidableEq Value := Value.decEq

/-- VMap is `data.Map`: an insertion-ordered mapping from string to Value. -/
abbrev VMap := List (String × Value)

/-- Lookup of a key in a VMap (first binding wins; keys are kept unique by
`VMap.set`). -/
def VMap.lookup (m : VMap) (k : String) : Option Value :=
  match m with
  | [] => none
  | (k', v) :: rest => if k' = k then some v else VMap.lookup rest k

/-- Replace the binding for `k` if present, otherwise append it — Go map
assignment `m[k] = v`, with insertion order kept for deterministic
iteration. -/
def VMap.set (m : VMap) (k : String) (v : Value) : VMap :=
  match m with
  | [] => [(k, v)]
  | (k', v') :: rest =>
      if k' = k then (k', v) :: rest else (k', v') :: VMap.set rest k v

/-- Association-list update used for all Go maps keyed by strings. -/
def upsert {α : Type} (l : List (String × α)) (k : String) (v : α) :
    List (String × α) :=
  match l with
  | [] => [(k, v)]
  | (k', v') :: rest =>
      if k' = k then (k', v) :: rest else (k', v') :: upsert rest k v

/-- Association-list lookup used for all Go maps keyed by strings. -/
def alistLookup {α : Type} (l : List (String × α)) (k : String) : Option α :=
  match l with
  | [] => none
  | (k', v) :: rest => if k' = k then some v else alistLookup rest k

/-- Cast of a Value to a Go `[]data.Value` (`data.AsArray`): succeeds exactly
on the array variant, otherwise a typed cast error — the per-variant `asArray`
methods (see `data/array.go` for the Array case). -/
def AsArray : Value → Except String (List Value)
  | .array vs => .ok vs
  | _ => .error "unsupported cast to array"

/-- Cast of a Value to Bool (`data.AsBool`): succeeds exactly on the bool
variant, otherwise a typed cast error, matching the `asBool` family of which
`data/array.go` shows the failing Array case. -/
def AsBool : Value → Except String Bool
  | .bool b => .ok b
  | _ => .error "unsupported cast to bool"

/-- Type-tag test used by `evalGroup`: `havingResult.Type() != data.TypeNull`. -/
def Value.isNull : Value → Bool
  | .null => true
  | _ => false

/-- Evaluator is the `execution.Evaluator` contract: a pure per-row
expression evaluator `Eval(data.Map) → (data.Value, error)`. -/
abbrev Evaluator := VMap → Except String Value

/-- Projection mirrors the fields of the plan's projection entries used by
`performQueryOnBuffer`: the output alias, its pre-split alias path, the
projection evaluator, the per-aggregate input evaluators (`aggrEvals`), and
the `hasAggregate` flag. -/
structure Projection where
  aliasName : String
  aliasPath : List String
  evaluator : Evaluator
  aggrEvals : List (String × Evaluator)
  hasAggregate : Bool

/-- Modelled from the spec: `assignOutputValue` is not part of the sources;
the spec says the result is assigned "into the output `Map` under the
projection's alias path (dotted path addressing nested Maps)".  We descend
the path components, creating nested maps as needed; assigning below a
non-map value is an error. -/
def assignOutputValue (m : VMap) (path : List String) (v : Value) :
    Except String VMap :=
  match path with
  | [] => .error "empty alias path"
  | [k] => .ok (m.set k v)
  | k :: rest =>
      match m.lookup k with
      | some (.map inner) => do
          let inner' ← assignOutputValue inner rest v
          .ok (m.set k (.map inner'))
      | some _ => .error "cannot assign into a non-map value"
      | none => do
          let inner' ← assignOutputValue [] rest v
          .ok (m.set k (.map inner'))

/-- InputRow is `inputRowWithCachedResult`: the source Map, the nullable
cached group-key Array (`cache`) and the cached hash. -/
structure InputRow where
  input : VMap
  cache : Option Value
  hash : Nat

/-- TmpGroupData is the intermediate per-group record: the group-key values
in GROUP BY order, the collected aggregate inputs keyed by aggregate
identifier, and one representative row's data. -/
structure TmpGroupData where
  group : List Value
  aggData : List (String × List Value)
  nonAggData : VMap

/-- ResultRow is `resultRow`: an output row plus its hash. -/
structure ResultRow where
  row : VMap
  hash : Nat
  deriving DecidableEq

/-- RSlice models a Go slice of resultRow together with the identity of its
backing array: `append` keeps the identity, `s[0:0]` keeps the identity and
empties the elements.  Two slices are "backed by disjoint arrays" iff their
`backing` tags differ. -/
structure RSlice where
  backing : Nat
  elems : List ResultRow

/-- Append one row to a result slice, keeping the backing-array identity. -/
def RSlice.push (s : RSlice) (r : ResultRow) : RSlice :=
  ⟨s.backing, s.elems ++ [r]⟩

/-- Groups is the state built by `findOrCreateGroup`: the hash map
`groups : hash → list of group records` (association list, the Go map) and
the ordered list `groupKeys` of first-seen hashes. -/
structure Groups where
  buckets : List (Nat × List TmpGroupData)
  groupKeys : List Nat

/-- The empty `groups` map and `groupKeys` list. -/
def Groups.empty : Groups := ⟨[], []⟩

/-- Lookup of a bucket in the groups map. -/
def bucketsLookup (l : List (Nat × List TmpGroupData)) (h : Nat) :
    Option (List TmpGroupData) :=
  match l with
  | [] => none
  | (h', b) :: rest => if h' = h then some b else bucketsLookup rest h

/-- Update of a bucket in the groups map (`groups[groupHash] = ...`). -/
def bucketsSet (l : List (Nat × List TmpGroupData)) (h : Nat)
    (b : List TmpGroupData) : List (Nat × List TmpGroupData) :=
  match l with
  | [] => [(h, b)]
  | (h', b') :: rest =>
      if h' = h then (h', b) :: rest else (h', b') :: bucketsSet rest h b

/-- PlanState carries the fields of `groupbyExecutionPlan` (through its
embedded `streamRelationStreamExecutionPlan`) that `performQueryOnBuffer`
touches: the projections, the GROUP BY evaluators, the window buffer, and the
two result slices. -/
structure PlanState where
  projections : List Projection
  groupList : List Evaluator
  filteredInputRows : List InputRow
  prevResults : RSlice
  curResults : RSlice

/-- Collect all aggregate parameter evaluators of all projections,
deduplicated by key (the Go map `allAggEvaluators`), in first-insertion
order. -/
def allAggEvaluators (projs : List Projection) : List (String × Evaluator) :=
  projs.foldl (fun acc p => p.aggrEvals.foldl (fun a kv => upsert a kv.1 kv.2) acc) []

/-- mkGroup: a fresh group record with the given key values, aggregate-input
map initialized to an empty list per aggregate key of every projection, and
a copy of the row's data as representative (deep copy is the identity on
immutable values). -/
def mkGroup (projs : List Projection) (groupValues : List Value)
    (nonGroupValues : VMap) : TmpGroupData :=
  { group := groupValues
    aggData := projs.foldl
      (fun acc p => p.aggrEvals.foldl (fun a kv => upsert a kv.1 []) acc) []
    nonAggData := nonGroupValues }

/-- Scan a bucket for the first group whose key values equal the given ones
(`data.Equal(data.Array(groupValues), groupCandidate.group)`), returning its
index. -/
def findInBucket (bucket : List TmpGroupData) (groupValues : List Value) :
    Option Nat :=
  match bucket with
  | [] => none
  | g :: rest =>
      if g.group = groupValues then some 0
      else (findInBucket rest groupValues).map (· + 1)

/-- findOrCreateGroup: look up the group with the given key values under the
given hash; create it (in a new bucket, appending the hash to `groupKeys`,
or appended to the existing bucket after a failed linear scan) when absent.
Returns the updated state and the location `(hash, index in bucket)` of the
found or created group. -/
def findOrCreateGroup (projs : List Projection) (gs : Groups)
    (groupValues : List Value) (groupHash : Nat) (nonGroupValues : VMap) :
    Groups × Nat × Nat :=
  match bucketsLookup gs.buckets groupHash with
  | none =>
      let g := mkGroup projs groupValues nonGroupValues
      (⟨bucketsSet gs.buckets groupHash [g], gs.groupKeys ++ [groupHash]⟩,
        groupHash, 0)
  | some bucket =>
      match findInBucket bucket groupValues with
      | some i => (gs, groupHash, i)
      | none =>
          let g := mkGroup projs groupValues nonGroupValues
          (⟨bucketsSet gs.buckets groupHash (bucket ++ [g]), gs.groupKeys⟩,
            groupHash, bucket.length)

/-- In-place update of the i-th group of a bucket, mirroring the Go update
through the `*tmpGroupData` pointer returned by `findOrCreateGroup`. -/
def updateAt (l : List TmpGroupData) (i : Nat)
    (f : TmpGroupData → TmpGroupData) : List TmpGroupData :=
  match l, i with
  | [], _ => []
  | g :: rest, 0 => f g :: rest
  | g :: rest, n + 1 => g :: updateAt rest n f

/-- The per-group effect of collecting one aggregate input:
`itemGroup.aggData[key] = append(itemGroup.aggData[key], value)`. -/
def appendAggFn (key : String) (v : Value) (g : TmpGroupData) : TmpGroupData :=
  { g with aggData :=
      upsert g.aggData key ((alistLookup g.aggData key).getD [] ++ [v]) }

/-- Append an aggregate input value to `group.aggData[key]` for the group at
the given location. -/
def groupsAppendAgg (gs : Groups) (h : Nat) (i : Nat) (key : String)
    (v : Value) : Groups :=
  match bucketsLookup gs.buckets h with
  | none => gs
  | some bucket =>
      ⟨bucketsSet gs.buckets h (updateAt bucket i (appendAggFn key v)),
        gs.groupKeys⟩

/-- Evaluate the GROUP BY expressions of `groupList` over a row in order
(the non-cached branch of `evalItem`). -/
def evalGroupValues (groupList : List Evaluator) (input : VMap) :
    Except String (List Value) :=
  match groupList with
  | [] => .ok []
  | e :: rest => do
      let v ← e input
      let vs ← evalGroupValues rest input
      .ok (v :: vs)

/-- The group-key step of `evalItem`: reuse the cached key Array and hash
when `io.cache` is set (a non-Array cache is an error), otherwise evaluate
every GROUP BY expression, cache the resulting Array and its hash on the
row.  Returns the key values together with the updated row. -/
def computeKey (hashFn : Value → Nat) (groupList : List Evaluator)
    (row : InputRow) : Except String (List Value × InputRow) :=
  match row.cache with
  | some c =>
      match AsArray c with
      | .ok vs => .ok (vs, row)
      | .error _ => .error "cached data was not an array"
  | none =>
      match evalGroupValues groupList row.input with
      | .error e => .error e
      | .ok vs =>
          .ok (vs,
            { row with cache := some (.array vs), hash := hashFn (.array vs) })

/-- The aggregate-input step of `evalItem`: for every collected aggregate
evaluator, evaluate it over the row and append the result to the group's
`aggData`. -/
def evalAggInputs (allAgg : List (String × Evaluator)) (input : VMap)
    (gs : Groups) (h i : Nat) : Groups × Option String :=
  match allAgg with
  | [] => (gs, none)
  | (key, agg) :: rest =>
      match agg input with
      | .error e => (gs, some e)
      | .ok v => evalAggInputs rest input (groupsAppendAgg gs h i key v) h i

/-- evalItem: compute (or reuse) the row's group key, dispatch the row to
its group via `findOrCreateGroup`, then collect all aggregate function
inputs for it.  Returns the updated row and groups, and the error if any
evaluation failed. -/
def evalItem (hashFn : Value → Nat) (groupList : List Evaluator)
    (projs : List Projection) (allAgg : List (String × Evaluator))
    (gs : Groups) (row : InputRow) : InputRow × Groups × Option String :=
  match computeKey hashFn groupList row with
  | .error e => (row, gs, some e)
  | .ok (vs, row') =>
      let fr := findOrCreateGroup projs gs vs row'.hash row'.input
      let ea := evalAggInputs allAgg row'.input fr.1 fr.2.1 fr.2.2
      (row', ea.1, ea.2)

/-- The per-row loop of `performQueryOnBuffer`: run `evalItem` over the
window rows in order, stopping at the first error (rows after the failing
one keep their previous state, as their Go counterparts are not visited). -/
def evalItems (hashFn : Value → Nat) (groupList : List Evaluator)
    (projs : List Projection) (allAgg : List (String × Evaluator))
    (rows : List InputRow) (gs : Groups) :
    List InputRow × Groups × Option String :=
  match rows with
  | [] => ([], gs, none)
  | r :: rest =>
      match evalItem hashFn groupList projs allAgg gs r with
      | (r', gs', some e) => (r' :: rest, gs', some e)
      | (r', gs', none) =>
          let (rest', gs'', err) := evalItems hashFn groupList projs allAgg rest gs'
          (r' :: rest', gs'', err)

/-- Move the collected aggregate inputs into the representative row data: for
every aggregate key, `group.nonAggData[key] = data.Array(group.aggData[key])`
(a missing entry yields the empty Array, as a nil Go slice would). -/
def moveAggData (allAgg : List (String × Evaluator)) (g : TmpGroupData) : VMap :=
  allAgg.foldl
    (fun m kv => m.set kv.1 (.array ((alistLookup g.aggData kv.1).getD [])))
    g.nonAggData

/-- The HAVING step of `evalGroup`: find the first projection aliased
`:having:`; evaluate it over the group data; `Null` counts as false; any
other value is cast to Bool (a failing cast is an error).  Returns `none`
when there is no HAVING projection, else the decision. -/
def evalHaving (projs : List Projection) (row : VMap) :
    Except String (Option Bool) :=
  match projs with
  | [] => .ok none
  | p :: rest =>
      if p.aliasName = ":having:" then do
        let v ← p.evaluator row
        if v.isNull then .ok (some false)
        else do
          let b ← AsBool v
          .ok (some b)
      else evalHaving rest row

/-- The projection loop shared by `evalGroup` and `evalNoGroup`: evaluate
every projection not aliased `:having:` over the row data and assign the
result under its alias path into the output map. -/
def evalProjections (projs : List Projection) (rowData : VMap)
    (result : VMap) : Except String VMap :=
  match projs with
  | [] => .ok result
  | p :: rest =>
      if p.aliasName = ":having:" then evalProjections rest rowData result
      else do
        let v ← p.evaluator rowData
        let result' ← assignOutputValue result p.aliasPath v
        evalProjections rest rowData result'

/-- evalGroup: expose the aggregate inputs as Array values, apply the HAVING
filter (Null or false skips the group, producing no row), then evaluate all
other projections and produce the output row with its hash. -/
def evalGroup (hashFn : Value → Nat) (projs : List Projection)
    (allAgg : List (String × Evaluator)) (g : TmpGroupData) :
    Except String (Option ResultRow) := do
  let rowData := moveAggData allAgg g
  let keep ← match ← evalHaving projs rowData with
    | some b => pure b
    | none => pure true
  if keep then do
    let result ← evalProjections projs rowData []
    .ok (some ⟨result, hashFn (.map result)⟩)
  else .ok none

/-- The per-group loop of `performQueryOnBuffer` over one bucket, appending
each produced row to the output slice. -/
def evalBucket (hashFn : Value → Nat) (projs : List Projection)
    (allAgg : List (String × Evaluator)) (bucket : List TmpGroupData)
    (out : RSlice) : RSlice × Option String :=
  match bucket with
  | [] => (out, none)
  | g :: rest =>
      match evalGroup hashFn projs allAgg g with
      | .error e => (out, some e)
      | .ok none => evalBucket hashFn projs allAgg rest out
      | .ok (some r) => evalBucket hashFn projs allAgg rest (out.push r)

/-- The per-group loop of `performQueryOnBuffer`: iterate the buckets in
`groupKeys` (first-seen) order — not in map order — and within each bucket
in insertion order. -/
def evalGroups (hashFn : Value → Nat) (projs : List Projection)
    (allAgg : List (String × Evaluator)) (keys : List Nat)
    (buckets : List (Nat × List TmpGroupData)) (out : RSlice) :
    RSlice × Option String :=
  match keys with
  | [] => (out, none)
  | k :: rest =>
      match evalBucket hashFn projs allAgg ((bucketsLookup buckets k).getD []) out with
      | (out', some e) => (out', some e)
      | (out', none) => evalGroups hashFn projs allAgg rest buckets out'

/-- The per-projection step of `evalNoGroup`: extend the synthesized input
with an empty Array per aggregate key of an aggregating projection, then
evaluate the projection on it and assign the result under its alias path. -/
def noGroupStep (acc : VMap × VMap) (p : Projection) :
    Except String (VMap × VMap) := do
  let (input, result) := acc
  let input' := if p.hasAggregate then
      p.aggrEvals.foldl (fun m kv => VMap.set m kv.1 (.array [])) input
    else input
  let v ← p.evaluator input'
  let result' ← assignOutputValue result p.aliasPath v
  pure (input', result')

/-- evalNoGroup: with a non-empty GROUP BY list, produce no row; otherwise
synthesize a single empty group — every aggregate key of an aggregating
projection is fed an empty Array — evaluate every projection (including any
aliased `:having:`) over that map and produce one row. -/
def evalNoGroup (hashFn : Value → Nat) (groupList : List Evaluator)
    (projs : List Projection) : Except String (Option ResultRow) :=
  if groupList.length > 0 then .ok none
  else do
    let (_, result) ← projs.foldlM noGroupStep (([] : VMap), ([] : VMap))
    .ok (some ⟨result, hashFn (.map result)⟩)

/-- performQueryOnBuffer: truncate the previous-results slice for reuse as
the output, move `curResults` into `prevResults`, dispatch every window row
to its group, evaluate every group in first-seen-key order, fall back to the
synthesized empty group when no group exists, and commit the output into
`curResults`.  On any error the rollback leaves `prevResults` pointing at
the reused output slice and `curResults` untouched. -/
def performQueryOnBuffer (hashFn : Value → Nat) (ep : PlanState) :
    PlanState × Option String :=
  let output0 : RSlice := ⟨ep.prevResults.backing, []⟩
  let ep1 := { ep with prevResults := ep.curResults }
  let allAgg := allAggEvaluators ep1.projections
  match evalItems hashFn ep1.groupList ep1.projections allAgg
      ep1.filteredInputRows Groups.empty with
  | (rows', _, some e) =>
      ({ ep1 with filteredInputRows := rows', prevResults := output0 }, some e)
  | (rows', gs, none) =>
      let ep2 := { ep1 with filteredInputRows := rows' }
      match evalGroups hashFn ep2.projections allAgg gs.groupKeys gs.buckets
          output0 with
      | (out1, some e) => ({ ep2 with prevResults := out1 }, some e)
      | (out1, none) =>
          if gs.buckets.isEmpty then
            match evalNoGroup hashFn ep2.groupList ep2.projections with
            | .error e => ({ ep2 with prevResults := out1 }, some e)
            | .ok none => ({ ep2 with curResults := out1 }, none)
            | .ok (some r) => ({ ep2 with curResults := out1.push r }, none)
          else ({ ep2 with curResults := out1 }, none)

/-! Static topology: lifecycle state machine, Run initialization phase,
staticNode fatal handling, and the fanout (`staticDestinations`). -/

/-- TopologyState with its total order
Initialized < Starting < Running < Stopping < Stopped. -/
inductive TopologyState where
  | initialized
  | starting
  | running
  | stopping
  | stopped
  deriving DecidableEq

/-- Numeric rank of a topology state, inducing the total order used by
`t.state < s` in `wait`. -/
def TopologyState.rank : TopologyState → Nat
  | .initialized => 0
  | .starting => 1
  | .running => 2
  | .stopping => 3
  | .stopped => 4

instance : LE TopologyState := ⟨fun a b => a.rank ≤ b.rank⟩

instance : LT TopologyState := ⟨fun a b => a.rank < b.rank⟩

instance (a b : TopologyState) : Decidable (a ≤ b) :=
  inferInstanceAs (Decidable (a.rank ≤ b.rank))

/-- The `checkState` closure of `defaultStaticTopology.Run`, which runs under
the state mutex.  From `Initialized` it writes `Starting` and succeeds.  From
`Starting` it first calls `wait(TSRunning)` — `w` is the state observed when
that wait returns, which the wait loop guarantees to satisfy `running ≤ w` —
and then falls through to the error without writing the state.  From any
other state it returns the error at once, without writing the state.
Returns `(state write performed, whether the call waited, error)`. -/
def runCheckState (s : TopologyState) (w : TopologyState) :
    Option TopologyState × Bool × Option String :=
  match s with
  | .initialized => (some .starting, false, none)
  | .starting =>
      let _ := w
      (none, true, some "the static topology has already started")
  | _ => (none, false, some "the static topology has already started")

/-- Outcome of a `StatefulBox.Terminate` call. -/
inductive TermOutcome where
  | ok
  | failed (msg : String)
  | panicked (msg : String)
  deriving DecidableEq

/-- BoxSpec models one box of the topology as `Run` observes it: its name,
whether it is a `StatefulBox`, the result of its `Init` call and the behavior
of its `Terminate` call.  Boxes are listed in the (arbitrary but fixed)
iteration order of the Go `t.boxes` map. -/
structure BoxSpec where
  name : String
  stateful : Bool
  initErr : Option String
  term : TermOutcome
  deriving DecidableEq

/-- One observable event of the Init/Terminate phase of `Run`. -/
inductive RunEvent where
  | terminated (name : String)
  | terminateFailedLogged (name : String) (msg : String)
  | terminatePanicLogged (name : String) (msg : String)
  deriving DecidableEq

/-- Terminate one already-initialized box: a panic is recovered and logged,
an error is logged; either way the loop continues with the next box. -/
def terminateEvent (b : BoxSpec) : RunEvent :=
  match b.term with
  | .ok => .terminated b.name
  | .failed m => .terminateFailedLogged b.name m
  | .panicked m => .terminatePanicLogged b.name m

/-- The box-initialization loop of `Run`: skip non-stateful boxes; call
`Init` on each stateful box in order; on the first failure, call `Terminate`
on every box initialized so far (each call wrapped in a recover) and return
the initialization error.  Returns the terminate events and the error. -/
def initBoxesAux (boxes : List BoxSpec) (inited : List BoxSpec) :
    List RunEvent × Option String :=
  match boxes with
  | [] => ([], none)
  | b :: rest =>
      if b.stateful then
        match b.initErr with
        | some e => (inited.map terminateEvent, some e)
        | none => initBoxesAux rest (inited ++ [b])
      else initBoxesAux rest inited

/-- defaultStaticTopology.Run: `checkState` (fail without the deferred
`setState` when the topology is not `Initialized`), then initialize the
stateful boxes — terminating the already-initialized ones and returning the
error if any `Init` fails — then run all workers to completion; the deferred
`setState(TSStopped)` leaves the state `Stopped` whenever `checkState`
succeeded.  Returns `(final state, terminate events, error)`. -/
def topologyRun (s w : TopologyState) (boxes : List BoxSpec) :
    TopologyState × List RunEvent × Option String :=
  match runCheckState s w with
  | (_, _, some e) => (s, [], some e)
  | (_, _, none) =>
      match initBoxesAux boxes [] with
      | (evs, some e) => (.stopped, evs, some e)
      | (evs, none) => (.stopped, evs, none)

/-- Exit cause of one input worker of a `staticNode`: the worker either
consumes its pipe to a clean close, exits after the destination returns a
fatal error, or exits by panic. -/
inductive WorkerExit where
  | clean
  | fatal (msg : String)
  | panicked (msg : String)
  deriving DecidableEq

/-- One worker of a `staticNode`: the name of the input pipe it consumes and
its exit cause. -/
structure WorkerOutcome where
  input : String
  exit : WorkerExit
  deriving DecidableEq

/-- The fatal-path effects of `staticNode.run`, with the node's shared
`sync.Once` latch (`fatalErrorHandler`) threaded explicitly.  `workers`
lists the node's workers in the order their fatal conditions reach the
latch (any interleaving of the concurrent workers).  A worker whose exit is
fatal or a panic calls `fatalErrorHandler.Do`; only the single first caller
runs the body, which notifies the fatal listeners and starts a drainer on
that worker's own input.  Returns `(number of listener notifications, the
inputs on which a drainer was started)`. -/
def nodeRunFatalEffectsAux (workers : List WorkerOutcome) (fired : Bool) :
    Nat × List String :=
  match workers with
  | [] => (0, [])
  | wk :: rest =>
      match wk.exit with
      | .clean => nodeRunFatalEffectsAux rest fired
      | _ =>
          if fired then nodeRunFatalEffectsAux rest fired
          else
            let (n, ds) := nodeRunFatalEffectsAux rest true
            (n + 1, wk.input :: ds)

/-- The fatal-path effects of `staticNode.run` starting from the untriggered
latch. -/
def nodeRunFatalEffects (workers : List WorkerOutcome) : Nat × List String :=
  nodeRunFatalEffectsAux workers false

/-- GoTuple models `tuple.Tuple` where copy identity matters: the payload
plus an identity tag; `Copy` yields the same payload under a fresh tag. -/
structure GoTuple where
  id : Nat
  payload : VMap
  deriving DecidableEq

/-- Tuple.Copy: a deep copy of the tuple — equal payload, fresh identity. -/
def copyTuple (fresh : Nat) (t : GoTuple) : GoTuple := ⟨fresh, t.payload⟩

/-- DstSpec models one destination of a `staticDestinations`: its registered
name and the results its `Write` and `Close` return. -/
structure DstSpec where
  name : String
  writeErr : Option String
  closeErr : Option String
  deriving DecidableEq

/-- Modelled from the spec: `bulkErrors` is not part of the sources; per the
spec it "aggregates constituent errors into one message preserving all
names" and `returnError` yields no error when nothing was appended.  We keep
the collected messages and join them. -/
def bulkErrorsReturn (errs : List String) : Option String :=
  match errs with
  | [] => none
  | _ => some (String.intercalate "; " errs)

/-- The destination loop of `staticDestinations.Write`: forward `s` — the
original tuple, or a fresh deep copy when copying is needed — to each
destination in list order, collecting a message for every failed write.
Fresh copy identities are `fresh`, `fresh + 1`, ... . -/
def sdWriteAux (dsts : List DstSpec) (t : GoTuple) (needsCopy : Bool)
    (fresh : Nat) : List (String × GoTuple) × List String :=
  match dsts with
  | [] => ([], [])
  | d :: rest =>
      let s := if needsCopy then copyTuple fresh t else t
      let (sent, errs) := sdWriteAux rest t needsCopy (fresh + 1)
      ((d.name, s) :: sent,
        (match d.writeErr with
         | some e => ["a tuple cannot be written to " ++ d.name ++ ": " ++ e]
         | none => []) ++ errs)

/-- staticDestinations.Write: `needsCopy` is true exactly when there is more
than one destination; each destination then receives a deep copy instead of
the original.  Per-destination write errors are aggregated by `bulkErrors`.
Returns the (destination name, forwarded tuple) list in destination order
and the aggregate error. -/
def sdWrite (dsts : List DstSpec) (t : GoTuple) (fresh : Nat) :
    List (String × GoTuple) × Option String :=
  let (sent, errs) := sdWriteAux dsts t (dsts.length > 1) fresh
  (sent, bulkErrorsReturn errs)

/-- staticDestinations.Close: close every destination in list order,
aggregating the per-destination close errors by `bulkErrors`.  Returns the
names closed, in order, and the aggregate error. -/
def sdClose (dsts : List DstSpec) : List String × Option String :=
  let closed := dsts.map (·.name)
  let errs := dsts.foldr
    (fun d acc =>
      (match d.closeErr with
       | some e => ["output channel to " ++ d.name ++ " cannot be closed: " ++ e]
       | none => []) ++ acc) []
  (closed, bulkErrorsReturn errs)

/-- The cached group key of a row after a successful dispatch: its hash and
the cached key Array. -/
def cachedKey (r : InputRow) : Nat × List Value :=
  (r.hash, match r.cache with
    | some (.array vs) => vs
    | _ => [])

/-- Specification of the order `groupKeys` realizes: the distinct hashes in
first-occurrence order. -/
def firstSeenHashes (ks : List Nat) : List Nat :=
  ks.foldl (fun acc k => if k ∈ acc then acc else acc ++ [k]) []

/-- Specification of one bucket's insertion order: the distinct key Arrays
carrying hash `h`, in first-occurrence order. -/
def firstSeenValuesFor (h : Nat) (pairs : List (Nat × List Value)) :
    List (List Value) :=
  pairs.foldl
    (fun acc p =>
      if p.1 = h then (if p.2 ∈ acc then acc else acc ++ [p.2]) else acc) []

/-- Specification of the group emission order, written without any hash map:
first-seen hashes in order, and within each hash the first-seen key Arrays
in order. -/
def specGroupOrder (pairs : List (Nat × List Value)) :
    List (Nat × List Value) :=
  (firstSeenHashes (pairs.map Prod.fst)).flatMap
    (fun h => (firstSeenValuesFor h pairs).map (fun v => (h, v)))

/-- The key Arrays of the bucket a hash maps to, in bucket order. -/
def bucketGroups (gs : Groups) (h : Nat) : List (List Value) :=
  ((bucketsLookup gs.buckets h).getD []).map (·.group)

/-- The (hash, key Array) pairs the per-group loop of
`performQueryOnBuffer` traverses, in traversal order: `groupKeys` order,
then intra-bucket insertion order. -/
def groupsTraversal (gs : Groups) : List (Nat × List Value) :=
  gs.groupKeys.flatMap (fun h => (bucketGroups gs h).map (fun v => (h, v)))

/-- The group records the per-group loop traverses, in traversal order. -/
def traversalGroups (gs : Groups) : List TmpGroupData :=
  gs.groupKeys.flatMap (fun h => (bucketsLookup gs.buckets h).getD [])

/-- The invariant the dispatch loop maintains between the processed
(hash, key Array) pairs and the groups state. -/
def GInv (pairs : List (Nat × List Value)) (gs : Groups) : Prop :=
  gs.groupKeys = firstSeenHashes (pairs.map Prod.fst) ∧
  (∀ h, bucketGroups gs h = firstSeenValuesFor h pairs) ∧
  (∀ h, bucketsLookup gs.buckets h = none ↔ h ∉ pairs.map Prod.fst)

/-- Apply the optional state write a lifecycle call performs. -/
def applyWrite (s : TopologyState) : Option TopologyState → TopologyState
  | none => s
  | some s' => s'

/-! Theorems. -/

/-- Claim C7: Run succeeds only from Initialized, where it advances the
state to Starting; from any other state it returns "the static topology has
already started" without writing the state itself, and from Starting it
first waits (for the state to reach at least Running, the `wait(TSRunning)`
contract) before returning that error; two serialized Run calls from
Initialized hence have exactly one that proceeds. -/
theorem run_requires_initialized :
    ∀ (s w w2 : TopologyState),
      ((runCheckState s w).2.2 = none ↔ s = .initialized) ∧
      (runCheckState .initialized w = (some .starting, false, none)) ∧
      (s ≠ .initialized →
        (runCheckState s w).1 = none ∧
        (runCheckState s w).2.2 = some "the static topology has already started") ∧
      ((runCheckState .starting w).2.1 = true) ∧
      ((runCheckState .initialized w).2.2 = none ∧
        (runCheckState
          (applyWrite .initialized (runCheckState .initialized w).1) w2).2.2 =
          some "the static topology has already started") := by
  intro s w w2
  refine ⟨?_, rfl, ?_, rfl, ⟨rfl, rfl⟩⟩
  · cases s <;> simp [runCheckState]
  · intro hs
    cases s <;> simp_all [runCheckState]

/-- Witness for `run_requires_initialized` at concrete states. -/
theorem run_requires_initialized_witness :
    (runCheckState .running .running).1 = none ∧
    (runCheckState .running .running).2.2 =
      some "the static topology has already started" :=
  (run_requires_initialized .running .running .running).2.2.1 (by decide)

/-- The failing-Init path of `initBoxesAux`: with every stateful box of
`pre` initializing cleanly and `b` stateful with a failing Init, the loop
terminates every stateful box of `pre`, in order, and returns the Init
error. -/
theorem initBoxesAux_failure (b : BoxSpec) (e : String) (post : List BoxSpec)
    (hb : b.stateful = true) (he : b.initErr = some e) :
    ∀ (pre acc : List BoxSpec),
      (∀ b' ∈ pre, b'.stateful = true → b'.initErr = none) →
      initBoxesAux (pre ++ b :: post) acc =
        ((acc ++ pre.filter (·.stateful)).map terminateEvent, some e) := by
  intro pre
  induction pre with
  | nil =>
      intro acc _
      simp [initBoxesAux, hb, he]
  | cons p rest ih =>
      intro acc hpre
      by_cases hp : p.stateful = true
      · have hinit : p.initErr = none := hpre p (by simp) hp
        simp only [List.cons_append, initBoxesAux, hp, if_true, hinit,
          List.append_eq]
        rw [ih (acc ++ [p]) (fun b' hb' hs => hpre b' (by simp [hb']) hs)]
        simp [List.filter_cons, hp]
      · simp only [List.cons_append, initBoxesAux, hp, if_false, List.append_eq]
        rw [if_neg (by simp [hp])]
        rw [ih acc (fun b' hb' hs => hpre b' (by simp [hb']) hs)]
        simp [List.filter_cons, hp]

/-- Claim C8: if the Init of some stateful Box fails during Run, every Box
initialized before it gets a Terminate call (each one wrapped in a recover,
so a panic or error during one Terminate is logged and the loop continues
to the remaining ones), Run returns the Init error, and the deferred
setState leaves the topology state Stopped. -/
theorem run_init_failure_terminates :
    ∀ (pre post : List BoxSpec) (b : BoxSpec) (e : String) (w : TopologyState),
      b.stateful = true → b.initErr = some e →
      (∀ b' ∈ pre, b'.stateful = true → b'.initErr = none) →
      topologyRun .initialized w (pre ++ b :: post) =
        (.stopped, (pre.filter (·.stateful)).map terminateEvent, some e) := by
  intro pre post b e w hb he hpre
  simp only [topologyRun, runCheckState]
  rw [initBoxesAux_failure b e post hb he pre [] hpre]
  simp

/-- Witness for `run_init_failure_terminates`: two cleanly initializing
boxes, one Terminate of which panics and one fails, followed by the box
whose Init fails. -/
theorem run_init_failure_terminates_witness :
    topologyRun .initialized .initialized
        [⟨"b1", true, none, .panicked "tp"⟩, ⟨"b2", true, none, .failed "te"⟩,
         ⟨"b3", true, some "init boom", .ok⟩, ⟨"b4", true, none, .ok⟩] =
      (.stopped,
        [.terminatePanicLogged "b1" "tp", .terminateFailedLogged "b2" "te"],
        some "init boom") := by
  have h := run_init_failure_terminates
    [⟨"b1", true, none, .panicked "tp"⟩, ⟨"b2", true, none, .failed "te"⟩]
    [⟨"b4", true, none, .ok⟩] ⟨"b3", true, some "init boom", .ok⟩
    "init boom" .initialized rfl rfl (by decide)
  simpa [terminateEvent] using h

/-- Once the latch has fired, the fatal handler produces no further
notification and no further drainer. -/
theorem nodeRunFatalEffectsAux_fired (workers : List WorkerOutcome) :
    nodeRunFatalEffectsAux workers true = (0, []) := by
  induction workers with
  | nil => rfl
  | cons wk rest ih => cases wk with
      | mk i ex => cases ex <;> simp [nodeRunFatalEffectsAux, ih]

/-- Claim C6 (amended): across all workers of a Node, a fatal error or panic
produces exactly one fatal-listener notification and exactly one drainer in
total — started on the input of the single worker that wins the shared
one-shot latch — for every arrival order of the failing workers; each
drained input belongs to some worker that failed fatally. -/
theorem node_fatal_once :
    ∀ workers : List WorkerOutcome,
      ((∃ wk ∈ workers, wk.exit ≠ .clean) →
        (nodeRunFatalEffects workers).1 = 1 ∧
        (nodeRunFatalEffects workers).2.length = 1 ∧
        (∀ i ∈ (nodeRunFatalEffects workers).2,
          ∃ wk ∈ workers, wk.input = i ∧ wk.exit ≠ .clean)) ∧
      ((∀ wk ∈ workers, wk.exit = .clean) →
        nodeRunFatalEffects workers = (0, [])) := by
  intro workers
  constructor
  · intro hex
    induction workers with
    | nil => simp at hex
    | cons wk rest ih =>
        cases hwk : wk.exit with
        | clean =>
            have hex' : ∃ w ∈ rest, w.exit ≠ .clean := by
              rcases hex with ⟨w, hw, hne⟩
              rcases List.mem_cons.mp hw with h | h
              · exact absurd (h ▸ hwk) hne
              · exact ⟨w, h, hne⟩
            have hstep : nodeRunFatalEffects (wk :: rest) =
                nodeRunFatalEffects rest := by
              simp [nodeRunFatalEffects, nodeRunFatalEffectsAux, hwk]
            have hr := ih hex'
            rw [hstep]
            refine ⟨hr.1, hr.2.1, fun i hi => ?_⟩
            rcases hr.2.2 i hi with ⟨w, hw, h1, h2⟩
            exact ⟨w, List.mem_cons_of_mem _ hw, h1, h2⟩
        | fatal m =>
            refine ⟨?_, ?_, ?_⟩ <;>
              simp [nodeRunFatalEffects, nodeRunFatalEffectsAux, hwk,
                nodeRunFatalEffectsAux_fired]
        | panicked m =>
            refine ⟨?_, ?_, ?_⟩ <;>
              simp [nodeRunFatalEffects, nodeRunFatalEffectsAux, hwk,
                nodeRunFatalEffectsAux_fired]
  · intro hall
    induction workers with
    | nil => rfl
    | cons wk rest ih =>
        have hwk := hall wk (by simp)
        have hih := ih (fun w hw => hall w (List.mem_cons_of_mem _ hw))
        rw [show nodeRunFatalEffects (wk :: rest) = nodeRunFatalEffects rest by
          simp [nodeRunFatalEffects, nodeRunFatalEffectsAux, hwk]]
        exact hih

/-- Witness for `node_fatal_once`: one fatal worker among two. -/
theorem node_fatal_once_witness :
    (nodeRunFatalEffects [⟨"in1", .clean⟩, ⟨"in2", .fatal "boom"⟩]).1 = 1 :=
  ((node_fatal_once [⟨"in1", .clean⟩, ⟨"in2", .fatal "boom"⟩]).1
    ⟨⟨"in2", .fatal "boom"⟩, by decide, by decide⟩).1

/-- Counterexample to claim C6 as stated: with two inputs whose workers both
exit fatally, two workers exit due to a fatal error, but only the latch
winner's input gets a drainer — the other fatally-failing input is never
drained, so its producer can stay blocked. -/
theorem node_fatal_per_input_counterexample :
    (([⟨"in1", .fatal "boom"⟩, ⟨"in2", .fatal "boom"⟩] :
        List WorkerOutcome).filter (fun wk => wk.exit ≠ .clean)).length = 2 ∧
    (nodeRunFatalEffects [⟨"in1", .fatal "boom"⟩, ⟨"in2", .fatal "boom"⟩]).2 =
      ["in1"] ∧
    "in2" ∉
      (nodeRunFatalEffects [⟨"in1", .fatal "boom"⟩, ⟨"in2", .fatal "boom"⟩]).2 := by
  decide

/-- The forwarded-tuple list of the fanout write loop carries the
destinations' names, in list order. -/
theorem sdWriteAux_names (t : GoTuple) (nc : Bool) :
    ∀ (dsts : List DstSpec) (fresh : Nat),
      (sdWriteAux dsts t nc fresh).1.map Prod.fst = dsts.map (·.name) := by
  intro dsts
  induction dsts with
  | nil => intro fresh; rfl
  | cons d rest ih =>
      intro fresh
      simp [sdWriteAux, ih (fresh + 1)]

/-- In copying mode every forwarded tuple is a deep copy: equal payload,
identity distinct from the original's. -/
theorem sdWriteAux_copies (t : GoTuple) :
    ∀ (dsts : List DstSpec) (fresh : Nat), t.id < fresh →
      ∀ p ∈ (sdWriteAux dsts t true fresh).1,
        p.2.payload = t.payload ∧ p.2.id ≠ t.id := by
  intro dsts
  induction dsts with
  | nil => intro fresh _ p hp; simp [sdWriteAux] at hp
  | cons d rest ih =>
      intro fresh hf p hp
      simp only [sdWriteAux] at hp
      rcases List.mem_cons.mp hp with h | h
      · subst h
        exact ⟨rfl, by simp [copyTuple]; omega⟩
      · exact ih (fresh + 1) (by omega) p h

/-- The error list collected by `sdClose` is empty exactly when every
destination closed cleanly. -/
theorem sdClose_errs_nil :
    ∀ dsts : List DstSpec,
      (dsts.foldr
        (fun d acc =>
          (match d.closeErr with
           | some e => ["output channel to " ++ d.name ++
               " cannot be closed: " ++ e]
           | none => []) ++ acc) []) = [] ↔
      ∀ d ∈ dsts, d.closeErr = none := by
  intro dsts
  induction dsts with
  | nil => simp
  | cons d rest ih =>
      cases hc : d.closeErr with
      | none => simpa [hc] using ih
      | some e => simp [hc]

/-- Claim C9: the fanout forwards each tuple to every destination in list
order — forwarding the original when there is a single destination and a
deep copy (equal payload, distinct identity) to each destination when there
is more than one — and Close closes every destination, aggregating the
per-destination close errors into a single composite error that is absent
exactly when every destination closed cleanly. -/
theorem fanout_write_close_spec :
    ∀ (dsts : List DstSpec) (t : GoTuple) (fresh : Nat),
      t.id < fresh →
      ((sdWrite dsts t fresh).1.map Prod.fst = dsts.map (·.name)) ∧
      (∀ d, dsts = [d] → (sdWrite dsts t fresh).1 = [(d.name, t)]) ∧
      (dsts.length > 1 → ∀ p ∈ (sdWrite dsts t fresh).1,
        p.2.payload = t.payload ∧ p.2.id ≠ t.id) ∧
      ((sdClose dsts).1 = dsts.map (·.name)) ∧
      ((sdClose dsts).2 = none ↔ ∀ d ∈ dsts, d.closeErr = none) := by
  intro dsts t fresh hf
  refine ⟨?_, ?_, ?_, rfl, ?_⟩
  · simpa [sdWrite] using sdWriteAux_names t (dsts.length > 1) dsts fresh
  · intro d hd
    subst hd
    simp [sdWrite, sdWriteAux]
  · intro hlen p hp
    have hnc : (dsts.length > 1) = True := by simp [hlen]
    refine sdWriteAux_copies t dsts fresh hf p ?_
    simpa [sdWrite, hnc] using hp
  · unfold sdClose bulkErrorsReturn
    constructor
    · intro h
      rcases hcase : dsts.foldr
        (fun d acc =>
          (match d.closeErr with
           | some e => ["output channel to " ++ d.name ++
               " cannot be closed: " ++ e]
           | none => []) ++ acc) [] with _ | ⟨x, xs⟩
      · exact (sdClose_errs_nil dsts).mp hcase
      · rw [hcase] at h
        simp at h
    · intro h
      rw [(sdClose_errs_nil dsts).mpr h]

/-- Witness for `fanout_write_close_spec`: two destinations, one of which
fails to close. -/
theorem fanout_write_close_spec_witness :
    (sdWrite [⟨"d1", none, none⟩, ⟨"d2", none, some "ce"⟩] ⟨0, []⟩ 1).1.map
        Prod.fst = ["d1", "d2"] ∧
    ¬ (sdClose [⟨"d1", none, none⟩, ⟨"d2", none, some "ce"⟩]).2 = none := by
  have h := fanout_write_close_spec [⟨"d1", none, none⟩, ⟨"d2", none, some "ce"⟩]
    ⟨0, []⟩ 1 (by decide)
  refine ⟨h.1, fun hnone => ?_⟩
  have := (h.2.2.2.2).mp hnone ⟨"d2", none, some "ce"⟩ (by decide)
  simp at this

/-- Projections without the `:having:` alias are skipped by the HAVING
scan. -/
theorem evalHaving_skip (p : Projection) (ps2 : List Projection) (row : VMap) :
    ∀ ps1 : List Projection, (∀ q ∈ ps1, q.aliasName ≠ ":having:") →
      evalHaving (ps1 ++ p :: ps2) row = evalHaving (p :: ps2) row := by
  intro ps1
  induction ps1 with
  | nil => intro _; rfl
  | cons q rest ih =>
      intro hq
      have hne : q.aliasName ≠ ":having:" := hq q (by simp)
      simp only [List.cons_append, evalHaving, if_neg hne]
      exact ih (fun r hr => hq r (by simp [hr]))

/-- evalGroup in terms of the HAVING decision and the projection loop. -/
theorem evalGroup_eq (hashFn : Value → Nat) (projs : List Projection)
    (allAgg : List (String × Evaluator)) (g : TmpGroupData) :
    evalGroup hashFn projs allAgg g =
      match evalHaving projs (moveAggData allAgg g) with
      | .error e => .error e
      | .ok (some false) => .ok none
      | .ok (some true) | .ok none =>
          match evalProjections projs (moveAggData allAgg g) [] with
          | .error e => .error e
          | .ok r => .ok (some ⟨r, hashFn (.map r)⟩) := by
  unfold evalGroup
  cases hh : evalHaving projs (moveAggData allAgg g) with
  | error e => simp [hh, Bind.bind, Except.bind]
  | ok dec =>
      cases dec with
      | none =>
          cases hp : evalProjections projs (moveAggData allAgg g) [] <;>
            simp [hh, hp, Bind.bind, Except.bind, Pure.pure, Except.pure]
      | some b =>
          cases b with
          | false => simp [hh, Bind.bind, Except.bind, Pure.pure, Except.pure]
          | true =>
              cases hp : evalProjections projs (moveAggData allAgg g) [] <;>
                simp [hh, hp, Bind.bind, Except.bind, Pure.pure, Except.pure]

/-- Claim C4: for a group evaluated under a projection aliased `:having:`
(the first such projection, with none before it), the HAVING evaluator runs
against the group's nonAggData with the aggregate inputs folded in; a Null
result skips the group without error; a non-Null result is cast to Bool and
a failing cast is the returned error; a false result skips the group; only
a true result evaluates the remaining projections and produces a row; an
evaluator error is returned as-is. -/
theorem evalGroup_having_spec :
    ∀ (hashFn : Value → Nat) (ps1 ps2 : List Projection) (p : Projection)
      (allAgg : List (String × Evaluator)) (g : TmpGroupData),
      (∀ q ∈ ps1, q.aliasName ≠ ":having:") →
      p.aliasName = ":having:" →
      (p.evaluator (moveAggData allAgg g) = .ok .null →
        evalGroup hashFn (ps1 ++ p :: ps2) allAgg g = .ok none) ∧
      (p.evaluator (moveAggData allAgg g) = .ok (.bool false) →
        evalGroup hashFn (ps1 ++ p :: ps2) allAgg g = .ok none) ∧
      (p.evaluator (moveAggData allAgg g) = .ok (.bool true) →
        evalGroup hashFn (ps1 ++ p :: ps2) allAgg g =
          match evalProjections (ps1 ++ p :: ps2) (moveAggData allAgg g) [] with
          | .error e => .error e
          | .ok r => .ok (some ⟨r, hashFn (.map r)⟩)) ∧
      (∀ v, p.evaluator (moveAggData allAgg g) = .ok v →
        v.isNull = false → (∀ b, v ≠ .bool b) →
        evalGroup hashFn (ps1 ++ p :: ps2) allAgg g =
          .error "unsupported cast to bool") ∧
      (∀ e, p.evaluator (moveAggData allAgg g) = .error e →
        evalGroup hashFn (ps1 ++ p :: ps2) allAgg g = .error e) := by
  intro hashFn ps1 ps2 p allAgg g hps1 hp
  have hskip := evalHaving_skip p ps2 (moveAggData allAgg g) ps1 hps1
  have hcons : ∀ r : Except String Value, p.evaluator (moveAggData allAgg g) = r →
      evalHaving (p :: ps2) (moveAggData allAgg g) =
        match r with
        | .error e => .error e
        | .ok v =>
            if v.isNull then .ok (some false)
            else match AsBool v with
              | .error e => .error e
              | .ok b => .ok (some b) := by
    intro r hr
    cases r with
    | error e => simp [evalHaving, hp, hr, Bind.bind, Except.bind]
    | ok v =>
        by_cases hn : v.isNull
        · simp [evalHaving, hp, hr, hn, Bind.bind, Except.bind, Pure.pure,
            Except.pure]
        · cases hab : AsBool v <;>
            simp [evalHaving, hp, hr, hn, hab, Bind.bind, Except.bind,
              Pure.pure, Except.pure]
  refine ⟨?_, ?_, ?_, ?_, ?_⟩
  · intro he
    rw [evalGroup_eq, hskip, hcons _ he]
    rfl
  · intro he
    rw [evalGroup_eq, hskip, hcons _ he]
    rfl
  · intro he
    rw [evalGroup_eq, hskip, hcons _ he]
    rfl
  · intro v he hn hb
    have hab : AsBool v = .error "unsupported cast to bool" := by
      cases v <;> simp_all [AsBool, Value.isNull]
    rw [evalGroup_eq, hskip, hcons _ he]
    simp [hn, hab]
  · intro e he
    rw [evalGroup_eq, hskip, hcons _ he]

/-- Witness for `evalGroup_having_spec`: a single HAVING projection whose
evaluator returns Null — the group is skipped without error. -/
theorem evalGroup_having_spec_witness :
    evalGroup (fun _ => 0)
      [⟨":having:", [":having:"], fun _ => .ok .null, [], false⟩] []
      ⟨[], [], []⟩ = .ok none :=
  (evalGroup_having_spec (fun _ => 0) []
    [] ⟨":having:", [":having:"], fun _ => .ok .null, [], false⟩ [] ⟨[], [], []⟩
    (by simp) rfl).1 rfl

/-- Claim C5: on a window with no input rows, the grouping operator emits
zero rows when the GROUP BY list is non-empty, and — when the GROUP BY list
is empty — synthesizes the single empty group via `evalNoGroup` and emits
exactly the one row it produces. -/
theorem empty_window_law :
    ∀ (hashFn : Value → Nat) (ep : PlanState),
      ep.filteredInputRows = [] →
      (ep.groupList ≠ [] →
        (performQueryOnBuffer hashFn ep).2 = none ∧
        (performQueryOnBuffer hashFn ep).1.curResults.elems = []) ∧
      (ep.groupList = [] →
        ∀ r, evalNoGroup hashFn ep.groupList ep.projections = .ok (some r) →
          (performQueryOnBuffer hashFn ep).2 = none ∧
          (performQueryOnBuffer hashFn ep).1.curResults.elems = [r]) := by
  intro hashFn ep hrows
  constructor
  · intro hgl
    have hng : evalNoGroup hashFn ep.groupList ep.projections = .ok none := by
      unfold evalNoGroup
      rw [if_pos (by simpa [List.length_pos] using hgl)]
    simp [performQueryOnBuffer, hrows, evalItems, evalGroups, Groups.empty,
      hng]
  · intro hgl r hr
    simp [performQueryOnBuffer, hrows, evalItems, evalGroups, Groups.empty,
      hr, RSlice.push]

/-- Witness for `empty_window_law`: an empty window under `SELECT count`
(an aggregate-only plan without GROUP BY) emits exactly one row, and the
same window under a one-expression GROUP BY emits zero rows. -/
theorem empty_window_law_witness :
    (performQueryOnBuffer (fun _ => 0)
      { projections := [⟨"count", ["count"],
          fun m => match VMap.lookup m ":v:" with
            | some (.array vs) => .ok (.int vs.length)
            | _ => .error "no array",
          [(":v:", fun _ => .ok .null)], true⟩]
        groupList := []
        filteredInputRows := []
        prevResults := ⟨0, []⟩
        curResults := ⟨1, []⟩ }).1.curResults.elems =
      [⟨[("count", .int 0)], 0⟩] ∧
    (performQueryOnBuffer (fun _ => 0)
      { projections := [⟨"k", ["k"],
          fun m => match VMap.lookup m "k" with
            | some v => .ok v
            | none => .error "no k", [], false⟩]
        groupList := [fun m => match VMap.lookup m "k" with
            | some v => .ok v
            | none => .error "no k"]
        filteredInputRows := []
        prevResults := ⟨0, []⟩
        curResults := ⟨1, []⟩ }).1.curResults.elems = [] := by
  constructor
  · have h := empty_window_law (fun _ => 0)
      { projections := [⟨"count", ["count"],
          fun m => match VMap.lookup m ":v:" with
            | some (.array vs) => .ok (.int vs.length)
            | _ => .error "no array",
          [(":v:", fun _ => .ok .null)], true⟩]
        groupList := []
        filteredInputRows := []
        prevResults := ⟨0, []⟩
        curResults := ⟨1, []⟩ } rfl
    exact (h.2 rfl ⟨[("count", .int 0)], 0⟩ rfl).2
  · have h := empty_window_law (fun _ => 0)
      { projections := [⟨"k", ["k"],
          fun m => match VMap.lookup m "k" with
            | some v => .ok v
            | none => .error "no k", [], false⟩]
        groupList := [fun m => match VMap.lookup m "k" with
            | some v => .ok v
            | none => .error "no k"]
        filteredInputRows := []
        prevResults := ⟨0, []⟩
        curResults := ⟨1, []⟩ } rfl
    exact (h.1 (by intro hh; exact List.noConfusion hh)).2

/-- Claim C10: in the synthesized empty group, a projection aliased
`:having:` is not a filter: `evalNoGroup` treats the alias like any other —
its result only depends on the projection's evaluator, aggregate keys and
alias path, so renaming the alias (to or from `:having:`) cannot change the
result — and with an empty GROUP BY list `evalNoGroup` never suppresses its
single row. -/
theorem noGroup_having_not_filter :
    ∀ (hashFn : Value → Nat) (ps1 ps2 : List Projection) (p : Projection)
      (a : String),
      (evalNoGroup hashFn [] (ps1 ++ p :: ps2) =
        evalNoGroup hashFn [] (ps1 ++ { p with aliasName := a } :: ps2)) ∧
      (∀ projs : List Projection, evalNoGroup hashFn [] projs ≠ .ok none) := by
  intro hashFn ps1 ps2 p a
  constructor
  · have hstep : ∀ acc : VMap × VMap,
        noGroupStep acc { p with aliasName := a } = noGroupStep acc p := by
      intro acc; rfl
    unfold evalNoGroup
    rw [if_neg (by simp)]
    rw [if_neg (by simp)]
    have hfold : ∀ init : VMap × VMap,
        (ps1 ++ p :: ps2).foldlM noGroupStep init =
          (ps1 ++ { p with aliasName := a } :: ps2).foldlM noGroupStep init := by
      intro init
      induction ps1 generalizing init with
      | nil =>
          simp only [List.nil_append, List.foldlM_cons, hstep]
      | cons q rest ih =>
          simp only [List.cons_append, List.foldlM_cons]
          exact bind_congr fun b => ih b
    rw [hfold]
  · intro projs h
    unfold evalNoGroup at h
    rw [if_neg (by simp)] at h
    cases hf : projs.foldlM noGroupStep (([] : VMap), ([] : VMap)) with
    | error e => simp [hf, Bind.bind, Except.bind] at h
    | ok x => simp [hf, Bind.bind, Except.bind] at h

/-- Witness for `noGroup_having_not_filter`: renaming a `:having:` alias to
an ordinary one leaves the empty-group evaluation unchanged. -/
theorem noGroup_having_not_filter_witness :
    evalNoGroup (fun _ => 0) []
        [⟨":having:", ["h"], fun _ => .ok (.bool false), [], false⟩] =
      evalNoGroup (fun _ => 0) []
        [⟨"x", ["h"], fun _ => .ok (.bool false), [], false⟩] :=
  (noGroup_having_not_filter (fun _ => 0) [] []
    ⟨":having:", ["h"], fun _ => .ok (.bool false), [], false⟩ "x").1

/-- A successful bucket scan returns the index of a group whose key values
equal the scanned ones. -/
theorem findInBucket_spec :
    ∀ (bucket : List TmpGroupData) (v : List Value) (i : Nat),
      findInBucket bucket v = some i →
      ∃ g, bucket[i]? = some g ∧ g.group = v := by
  intro bucket
  induction bucket with
  | nil => intro v i h; simp [findInBucket] at h
  | cons g rest ih =>
      intro v i h
      by_cases hg : g.group = v
      · simp [findInBucket, hg] at h
        subst h
        exact ⟨g, by simp, hg⟩
      · simp only [findInBucket, if_neg hg, Option.map_eq_some'] at h
        rcases h with ⟨j, hj, hij⟩
        rcases ih v j hj with ⟨g', hg', hv⟩
        subst hij
        exact ⟨g', by simpa using hg', hv⟩

/-- A successful bucket scan returns an index inside the bucket. -/
theorem findInBucket_lt (bucket : List TmpGroupData) (v : List Value)
    (i : Nat) (h : findInBucket bucket v = some i) : i < bucket.length := by
  rcases findInBucket_spec bucket v i h with ⟨g, hg, _⟩
  obtain ⟨hlt, -⟩ := List.getElem?_eq_some.mp hg
  exact hlt

/-- Appending a group to a bucket the scan missed: the scan finds the new
group exactly when its key values match, at the end of the bucket. -/
theorem findInBucket_none_append (g : TmpGroupData) (v : List Value) :
    ∀ bucket : List TmpGroupData, findInBucket bucket v = none →
      findInBucket (bucket ++ [g]) v =
        if g.group = v then some bucket.length else none := by
  intro bucket
  induction bucket with
  | nil =>
      intro _
      by_cases hg : g.group = v <;> simp [findInBucket, hg]
  | cons q rest ih =>
      intro h
      by_cases hq : q.group = v
      · simp [findInBucket, hq] at h
      · simp only [findInBucket, if_neg hq, Option.map_eq_none'] at h
        simp only [List.cons_append, findInBucket, if_neg hq]
        by_cases hg : g.group = v <;> simp [ih h, hg]

/-- Updating a bucket and looking it up again. -/
theorem bucketsLookup_set_self (h : Nat) (b : List TmpGroupData) :
    ∀ l, bucketsLookup (bucketsSet l h b) h = some b := by
  intro l
  induction l with
  | nil => simp [bucketsSet, bucketsLookup]
  | cons p rest ih =>
      by_cases hp : p.1 = h
      · simp [bucketsSet, bucketsLookup, hp]
      · simpa [bucketsSet, bucketsLookup, hp] using ih

/-- After `findOrCreateGroup`, the returned hash is the given one and the
returned index is exactly where a scan for the given key values finds its
group in the updated bucket. -/
theorem findOrCreateGroup_locates (projs : List Projection) (gs : Groups)
    (v : List Value) (h : Nat) (nag : VMap) :
    (findOrCreateGroup projs gs v h nag).2.1 = h ∧
    findInBucket
        ((bucketsLookup (findOrCreateGroup projs gs v h nag).1.buckets h).getD [])
        v = some (findOrCreateGroup projs gs v h nag).2.2 := by
  unfold findOrCreateGroup
  split
  · refine ⟨rfl, ?_⟩
    show findInBucket
      ((bucketsLookup (bucketsSet gs.buckets h [mkGroup projs v nag]) h).getD
        []) v = some 0
    rw [bucketsLookup_set_self]
    simp [findInBucket, mkGroup]
  · rename_i bucket hl
    split
    · rename_i i hf
      refine ⟨rfl, ?_⟩
      show findInBucket ((bucketsLookup gs.buckets h).getD []) v = some i
      rw [hl]
      simpa using hf
    · rename_i hf
      refine ⟨rfl, ?_⟩
      show findInBucket
        ((bucketsLookup
          (bucketsSet gs.buckets h (bucket ++ [mkGroup projs v nag]))
          h).getD []) v = some bucket.length
      rw [bucketsLookup_set_self]
      simp only [Option.getD_some]
      rw [findInBucket_none_append _ v bucket hf]
      simp [mkGroup]

/-- Reduction of `findOrCreateGroup` when the bucket exists and the linear
scan finds the key values. -/
theorem findOrCreateGroup_found (projs : List Projection) (gs : Groups)
    (v : List Value) (h : Nat) (nag : VMap) (b : List TmpGroupData) (i : Nat)
    (hb : bucketsLookup gs.buckets h = some b)
    (hf : findInBucket b v = some i) :
    findOrCreateGroup projs gs v h nag = (gs, h, i) := by
  unfold findOrCreateGroup
  rw [hb]
  simp [hf]

/-- Reduction of `findOrCreateGroup` when the bucket exists but the linear
scan misses: the new group is appended to the bucket. -/
theorem findOrCreateGroup_notFound (projs : List Projection) (gs : Groups)
    (v : List Value) (h : Nat) (nag : VMap) (b : List TmpGroupData)
    (hb : bucketsLookup gs.buckets h = some b)
    (hf : findInBucket b v = none) :
    findOrCreateGroup projs gs v h nag =
      (⟨bucketsSet gs.buckets h (b ++ [mkGroup projs v nag]), gs.groupKeys⟩,
        h, b.length) := by
  unfold findOrCreateGroup
  rw [hb]
  simp [hf]

/-- Claim C3: two rows dispatched to the same hash: if their GROUP BY key
Arrays are Equal, the second is assigned to the same group record (same
bucket, same index, groups state unchanged); if their key Arrays differ but
share the hash, the second is assigned to a distinct group record in the
same hash bucket, found (or appended) by the linear Equal scan. -/
theorem group_key_collision_spec :
    ∀ (projs : List Projection) (gs : Groups) (v1 v2 : List Value) (h : Nat)
      (n1 n2 : VMap),
      ((findOrCreateGroup projs gs v1 h n1).2.1 = h) ∧
      ((findOrCreateGroup projs (findOrCreateGroup projs gs v1 h n1).1
          v2 h n2).2.1 = h) ∧
      (v1 = v2 →
        findOrCreateGroup projs (findOrCreateGroup projs gs v1 h n1).1
            v2 h n2 =
          ((findOrCreateGroup projs gs v1 h n1).1, h,
            (findOrCreateGroup projs gs v1 h n1).2.2)) ∧
      (v1 ≠ v2 →
        (findOrCreateGroup projs (findOrCreateGroup projs gs v1 h n1).1
            v2 h n2).2.2 ≠ (findOrCreateGroup projs gs v1 h n1).2.2) := by
  intro projs gs v1 v2 h n1 n2
  obtain ⟨hh1, hloc1⟩ := findOrCreateGroup_locates projs gs v1 h n1
  obtain ⟨hh2, -⟩ := findOrCreateGroup_locates projs
    (findOrCreateGroup projs gs v1 h n1).1 v2 h n2
  have hbl : ∃ b1,
      bucketsLookup (findOrCreateGroup projs gs v1 h n1).1.buckets h =
        some b1 := by
    cases hb : bucketsLookup (findOrCreateGroup projs gs v1 h n1).1.buckets h with
    | none => rw [hb] at hloc1; simp [findInBucket] at hloc1
    | some b1 => exact ⟨b1, rfl⟩
  rcases hbl with ⟨b1, hb1⟩
  rw [hb1] at hloc1
  simp only [Option.getD_some] at hloc1
  refine ⟨hh1, hh2, ?_, ?_⟩
  · intro hv
    subst hv
    exact findOrCreateGroup_found projs _ v1 h n2 b1 _ hb1 hloc1
  · intro hv
    cases hf2 : findInBucket b1 v2 with
    | some j =>
        rw [findOrCreateGroup_found projs _ v2 h n2 b1 j hb1 hf2]
        simp only
        intro hji
        rcases findInBucket_spec b1 v2 j hf2 with ⟨g2, hg2, hv2⟩
        rcases findInBucket_spec b1 v1 _ hloc1 with ⟨g1, hg1, hv1⟩
        rw [hji, hg1] at hg2
        exact hv (by rw [← hv1, ← hv2, Option.some_inj.mp hg2])
    | none =>
        rw [findOrCreateGroup_notFound projs _ v2 h n2 b1 hb1 hf2]
        simp only
        intro hji
        exact absurd (hji ▸ findInBucket_lt b1 v1 _ hloc1)
          (lt_irrefl b1.length)

/-- Witness for `group_key_collision_spec`: two distinct key Arrays under
the same hash yield distinct indices in the same bucket. -/
theorem group_key_collision_spec_witness :
    (findOrCreateGroup [] (findOrCreateGroup [] Groups.empty
        [.int 1] 0 []).1 [.int 2] 0 []).2.2 ≠
      (findOrCreateGroup [] Groups.empty [.int 1] 0 []).2.2 :=
  (group_key_collision_spec [] Groups.empty [.int 1] [.int 2] 0 [] []).2.2.2
    (by decide)

/-- The per-bucket evaluation loop only appends rows: the backing-array
identity of the output slice is preserved. -/
theorem evalBucket_backing (hashFn : Value → Nat) (projs : List Projection)
    (allAgg : List (String × Evaluator)) :
    ∀ (bucket : List TmpGroupData) (out : RSlice),
      (evalBucket hashFn projs allAgg bucket out).1.backing = out.backing := by
  intro bucket
  induction bucket with
  | nil => intro out; rfl
  | cons g rest ih =>
      intro out
      unfold evalBucket
      cases evalGroup hashFn projs allAgg g with
      | error e => rfl
      | ok r =>
          cases r with
          | none => exact ih out
          | some row => exact ih (out.push row)

/-- The per-group evaluation loop only appends rows: the backing-array
identity of the output slice is preserved. -/
theorem evalGroups_backing (hashFn : Value → Nat) (projs : List Projection)
    (allAgg : List (String × Evaluator))
    (buckets : List (Nat × List TmpGroupData)) :
    ∀ (keys : List Nat) (out : RSlice),
      (evalGroups hashFn projs allAgg keys buckets out).1.backing =
        out.backing := by
  intro keys
  induction keys with
  | nil => intro out; rfl
  | cons k rest ih =>
      intro out
      unfold evalGroups
      cases hb : evalBucket hashFn projs allAgg
          ((bucketsLookup buckets k).getD []) out with
      | mk out' err =>
          have hback : out'.backing = out.backing := by
            have := evalBucket_backing hashFn projs allAgg
              ((bucketsLookup buckets k).getD []) out
            rw [hb] at this
            exact this
          cases err with
          | none => rw [ih out', hback]
          | some e => exact hback

/-- Reduction of `performQueryOnBuffer` when the per-row phase fails. -/
theorem performQueryOnBuffer_itemsError (hashFn : Value → Nat)
    (ep : PlanState) (rows' : List InputRow) (gs : Groups) (e : String)
    (h : evalItems hashFn ep.groupList ep.projections
      (allAggEvaluators ep.projections) ep.filteredInputRows Groups.empty =
        (rows', gs, some e)) :
    performQueryOnBuffer hashFn ep =
      ({ ep with
          filteredInputRows := rows',
          prevResults := ⟨ep.prevResults.backing, []⟩ }, some e) := by
  simp only [performQueryOnBuffer]
  rw [h]

/-- Reduction of `performQueryOnBuffer` when the per-group phase fails. -/
theorem performQueryOnBuffer_groupsError (hashFn : Value → Nat)
    (ep : PlanState) (rows' : List InputRow) (gs : Groups) (out1 : RSlice)
    (e : String)
    (h1 : evalItems hashFn ep.groupList ep.projections
      (allAggEvaluators ep.projections) ep.filteredInputRows Groups.empty =
        (rows', gs, none))
    (h2 : evalGroups hashFn ep.projections (allAggEvaluators ep.projections)
      gs.groupKeys gs.buckets ⟨ep.prevResults.backing, []⟩ = (out1, some e)) :
    performQueryOnBuffer hashFn ep =
      ({ ep with filteredInputRows := rows', prevResults := out1 },
        some e) := by
  simp only [performQueryOnBuffer]
  rw [h1]
  simp only
  rw [h2]

/-- Reduction of `performQueryOnBuffer` when the empty-group fallback
fails. -/
theorem performQueryOnBuffer_noGroupError (hashFn : Value → Nat)
    (ep : PlanState) (rows' : List InputRow) (gs : Groups) (out1 : RSlice)
    (e : String)
    (h1 : evalItems hashFn ep.groupList ep.projections
      (allAggEvaluators ep.projections) ep.filteredInputRows Groups.empty =
        (rows', gs, none))
    (h2 : evalGroups hashFn ep.projections (allAggEvaluators ep.projections)
      gs.groupKeys gs.buckets ⟨ep.prevResults.backing, []⟩ = (out1, none))
    (h3 : gs.buckets.isEmpty = true)
    (h4 : evalNoGroup hashFn ep.groupList ep.projections = .error e) :
    performQueryOnBuffer hashFn ep =
      ({ ep with filteredInputRows := rows', prevResults := out1 },
        some e) := by
  simp only [performQueryOnBuffer]
  rw [h1]
  simp only
  rw [h2]
  simp only [h3, if_true]
  rw [h4]

/-- Reduction of `performQueryOnBuffer` on success with at least one
group. -/
theorem performQueryOnBuffer_groupsOk (hashFn : Value → Nat)
    (ep : PlanState) (rows' : List InputRow) (gs : Groups) (out1 : RSlice)
    (h1 : evalItems hashFn ep.groupList ep.projections
      (allAggEvaluators ep.projections) ep.filteredInputRows Groups.empty =
        (rows', gs, none))
    (h2 : evalGroups hashFn ep.projections (allAggEvaluators ep.projections)
      gs.groupKeys gs.buckets ⟨ep.prevResults.backing, []⟩ = (out1, none))
    (h3 : gs.buckets.isEmpty = false) :
    performQueryOnBuffer hashFn ep =
      ({ ep with
          filteredInputRows := rows',
          prevResults := ep.curResults,
          curResults := out1 }, none) := by
  simp only [performQueryOnBuffer]
  rw [h1]
  simp only
  rw [h2]
  simp [h3]

/-- Reduction of `performQueryOnBuffer` on success through the synthesized
empty group, when a non-empty GROUP BY list suppresses the row. -/
theorem performQueryOnBuffer_noGroupOkNone (hashFn : Value → Nat)
    (ep : PlanState) (rows' : List InputRow) (gs : Groups) (out1 : RSlice)
    (h1 : evalItems hashFn ep.groupList ep.projections
      (allAggEvaluators ep.projections) ep.filteredInputRows Groups.empty =
        (rows', gs, none))
    (h2 : evalGroups hashFn ep.projections (allAggEvaluators ep.projections)
      gs.groupKeys gs.buckets ⟨ep.prevResults.backing, []⟩ = (out1, none))
    (h3 : gs.buckets.isEmpty = true)
    (h4 : evalNoGroup hashFn ep.groupList ep.projections = .ok none) :
    performQueryOnBuffer hashFn ep =
      ({ ep with
          filteredInputRows := rows',
          prevResults := ep.curResults,
          curResults := out1 }, none) := by
  simp only [performQueryOnBuffer]
  rw [h1]
  simp only
  rw [h2]
  simp only [h3, if_true]
  rw [h4]

/-- Reduction of `performQueryOnBuffer` on success through the synthesized
empty group, when the single synthesized row is emitted. -/
theorem performQueryOnBuffer_noGroupOkSome (hashFn : Value → Nat)
    (ep : PlanState) (rows' : List InputRow) (gs : Groups) (out1 : RSlice)
    (row : ResultRow)
    (h1 : evalItems hashFn ep.groupList ep.projections
      (allAggEvaluators ep.projections) ep.filteredInputRows Groups.empty =
        (rows', gs, none))
    (h2 : evalGroups hashFn ep.projections (allAggEvaluators ep.projections)
      gs.groupKeys gs.buckets ⟨ep.prevResults.backing, []⟩ = (out1, none))
    (h3 : gs.buckets.isEmpty = true)
    (h4 : evalNoGroup hashFn ep.groupList ep.projections = .ok (some row)) :
    performQueryOnBuffer hashFn ep =
      ({ ep with
          filteredInputRows := rows',
          prevResults := ep.curResults,
          curResults := out1.push row }, none) := by
  simp only [performQueryOnBuffer]
  rw [h1]
  simp only
  rw [h2]
  simp only [h3, if_true]
  rw [h4]

/-- Claim C1: when any evaluation step of `performQueryOnBuffer` fails, the
method returns that error (shown here for the per-row phase, whose error is
the returned one), `curResults` is left at its pre-call value, and the
rollback leaves `prevResults` on the reused output storage, so `prevResults`
and `curResults` are backed by disjoint arrays whenever they were disjoint
before the call. -/
theorem rollback_law :
    ∀ (hashFn : Value → Nat) (ep : PlanState) (e : String),
      ep.prevResults.backing ≠ ep.curResults.backing →
      ((performQueryOnBuffer hashFn ep).2 = some e →
        (performQueryOnBuffer hashFn ep).1.curResults = ep.curResults ∧
        (performQueryOnBuffer hashFn ep).1.prevResults.backing =
          ep.prevResults.backing ∧
        (performQueryOnBuffer hashFn ep).1.prevResults.backing ≠
          (performQueryOnBuffer hashFn ep).1.curResults.backing) ∧
      (∀ rows' gsx,
        evalItems hashFn ep.groupList ep.projections
            (allAggEvaluators ep.projections) ep.filteredInputRows
            Groups.empty = (rows', gsx, some e) →
        (performQueryOnBuffer hashFn ep).2 = some e) := by
  intro hashFn ep e hdisj
  constructor
  · intro herr
    cases hI : evalItems hashFn ep.groupList ep.projections
        (allAggEvaluators ep.projections) ep.filteredInputRows Groups.empty with
    | mk rows' rest =>
      cases rest with
      | mk gs errI =>
        cases errI with
        | some eI =>
            rw [performQueryOnBuffer_itemsError hashFn ep rows' gs eI hI]
            exact ⟨rfl, rfl, hdisj⟩
        | none =>
            cases hG : evalGroups hashFn ep.projections
                (allAggEvaluators ep.projections) gs.groupKeys gs.buckets
                ⟨ep.prevResults.backing, []⟩ with
            | mk out1 errG =>
              have hback : out1.backing = ep.prevResults.backing := by
                have hh := evalGroups_backing hashFn ep.projections
                  (allAggEvaluators ep.projections) gs.buckets gs.groupKeys
                  ⟨ep.prevResults.backing, []⟩
                rw [hG] at hh
                exact hh
              cases errG with
              | some eG =>
                  rw [performQueryOnBuffer_groupsError hashFn ep rows' gs
                    out1 eG hI hG]
                  exact ⟨rfl, hback, by simpa [hback] using hdisj⟩
              | none =>
                  by_cases hemp : gs.buckets.isEmpty
                  · cases hN : evalNoGroup hashFn ep.groupList
                        ep.projections with
                    | error eN =>
                        rw [performQueryOnBuffer_noGroupError hashFn ep rows'
                          gs out1 eN hI hG hemp hN]
                        exact ⟨rfl, hback, by simpa [hback] using hdisj⟩
                    | ok r =>
                        cases r with
                        | none =>
                            rw [performQueryOnBuffer_noGroupOkNone hashFn ep
                              rows' gs out1 hI hG hemp hN] at herr
                            simp at herr
                        | some row =>
                            rw [performQueryOnBuffer_noGroupOkSome hashFn ep
                              rows' gs out1 row hI hG hemp hN] at herr
                            simp at herr
                  · rw [performQueryOnBuffer_groupsOk hashFn ep rows' gs out1
                      hI hG (by simpa using hemp)] at herr
                    simp at herr
  · intro rows' gsx hx
    rw [performQueryOnBuffer_itemsError hashFn ep rows' gsx e hx]

/-- Witness for `rollback_law`: a plan whose GROUP BY evaluator fails on the
second row; the error is returned, `curResults` keeps its value and backing,
and the rollback leaves the two result slices on distinct backing arrays. -/
theorem rollback_law_witness :
    ((performQueryOnBuffer (fun _ => 0)
      { projections := []
        groupList := [fun m => match VMap.lookup m "k" with
          | some (.str "b") => .error "boom"
          | some v => .ok v
          | none => .error "no k"]
        filteredInputRows :=
          [⟨[("k", .str "a")], none, 0⟩, ⟨[("k", .str "b")], none, 0⟩]
        prevResults := ⟨0, []⟩
        curResults := ⟨1, [⟨[("old", .null)], 7⟩]⟩ }).1.curResults =
      ⟨1, [⟨[("old", .null)], 7⟩]⟩) ∧
    ((performQueryOnBuffer (fun _ => 0)
      { projections := []
        groupList := [fun m => match VMap.lookup m "k" with
          | some (.str "b") => .error "boom"
          | some v => .ok v
          | none => .error "no k"]
        filteredInputRows :=
          [⟨[("k", .str "a")], none, 0⟩, ⟨[("k", .str "b")], none, 0⟩]
        prevResults := ⟨0, []⟩
        curResults := ⟨1, [⟨[("old", .null)], 7⟩]⟩ }).1.prevResults.backing =
      0) := by
  have h := rollback_law (fun _ => 0)
    { projections := []
      groupList := [fun m => match VMap.lookup m "k" with
        | some (.str "b") => .error "boom"
        | some v => .ok v
        | none => .error "no k"]
      filteredInputRows :=
        [⟨[("k", .str "a")], none, 0⟩, ⟨[("k", .str "b")], none, 0⟩]
      prevResults := ⟨0, []⟩
      curResults := ⟨1, [⟨[("old", .null)], 7⟩]⟩ } "boom"
    (by decide)
  have hr := h.1 (by decide)
  exact ⟨hr.1, hr.2.1⟩

/-- Membership in the first-seen fold is membership in the accumulator or
the source list. -/
theorem mem_firstSeen_foldl (k : Nat) :
    ∀ (ks : List Nat) (acc : List Nat),
      k ∈ ks.foldl (fun a x => if x ∈ a then a else a ++ [x]) acc ↔
        k ∈ acc ∨ k ∈ ks := by
  intro ks
  induction ks with
  | nil => intro acc; simp
  | cons x rest ih =>
      intro acc
      rw [List.foldl_cons, ih]
      by_cases hx : x ∈ acc
      · simp only [if_pos hx, List.mem_cons]
        constructor
        · rintro (h | h)
          · exact Or.inl h
          · exact Or.inr (Or.inr h)
        · rintro (h | h | h)
          · exact Or.inl h
          · exact Or.inl (h ▸ hx)
          · exact Or.inr h
      · simp only [if_neg hx, List.mem_append, List.mem_singleton,
          List.mem_cons]
        tauto

/-- Membership in `firstSeenHashes`. -/
theorem mem_firstSeenHashes (k : Nat) (ks : List Nat) :
    k ∈ firstSeenHashes ks ↔ k ∈ ks := by
  unfold firstSeenHashes
  rw [mem_firstSeen_foldl]
  simp

/-- Appending one hash to the source of `firstSeenHashes`. -/
theorem firstSeenHashes_snoc (ks : List Nat) (k : Nat) :
    firstSeenHashes (ks ++ [k]) =
      if k ∈ ks then firstSeenHashes ks else firstSeenHashes ks ++ [k] := by
  unfold firstSeenHashes
  rw [List.foldl_append]
  simp only [List.foldl_cons, List.foldl_nil]
  by_cases hk : k ∈ ks
  · rw [if_pos ((mem_firstSeen_foldl k ks []).mpr (Or.inr hk)), if_pos hk]
  · rw [if_neg (fun hc => hk (by
      rcases (mem_firstSeen_foldl k ks []).mp hc with h | h
      · exact absurd h (List.not_mem_nil k)
      · exact h)), if_neg hk]

/-- Appending one pair to the source of `firstSeenValuesFor`. -/
theorem firstSeenValuesFor_snoc (h : Nat)
    (pairs : List (Nat × List Value)) (h' : Nat) (v : List Value) :
    firstSeenValuesFor h (pairs ++ [(h', v)]) =
      if h' = h then
        (if v ∈ firstSeenValuesFor h pairs then firstSeenValuesFor h pairs
         else firstSeenValuesFor h pairs ++ [v])
      else firstSeenValuesFor h pairs := by
  unfold firstSeenValuesFor
  rw [List.foldl_append]
  simp only [List.foldl_cons, List.foldl_nil]

/-- General lookup-after-update law for the groups map. -/
theorem bucketsLookup_set (h h' : Nat) (b : List TmpGroupData) :
    ∀ l, bucketsLookup (bucketsSet l h b) h' =
      if h' = h then some b else bucketsLookup l h' := by
  intro l
  induction l with
  | nil =>
      simp only [bucketsSet, bucketsLookup]
      by_cases hh : h' = h
      · rw [if_pos hh.symm, if_pos hh]
      · rw [if_neg (fun hc => hh hc.symm), if_neg hh]
  | cons p rest ih =>
      simp only [bucketsSet]
      by_cases hp : p.1 = h
      · rw [if_pos hp]
        simp only [bucketsLookup]
        split_ifs <;> first | rfl | omega
      · rw [if_neg hp]
        simp only [bucketsLookup, ih]
        split_ifs <;> first | rfl | omega

/-- The bucket scan misses exactly the key Arrays not in the bucket. -/
theorem findInBucket_none_iff (v : List Value) :
    ∀ bucket : List TmpGroupData,
      findInBucket bucket v = none ↔ v ∉ bucket.map (·.group) := by
  intro bucket
  induction bucket with
  | nil => simp [findInBucket]
  | cons g rest ih =>
      by_cases hg : g.group = v
      · simp [findInBucket, hg]
      · simp only [findInBucket, if_neg hg, Option.map_eq_none', ih,
          List.map_cons, List.mem_cons]
        constructor
        · intro hnm hc
          rcases hc with hc | hc
          · exact hg hc.symm
          · exact hnm hc
        · intro hnm hc
          exact hnm (Or.inr hc)

/-- A found key Array is in the bucket. -/
theorem findInBucket_some_mem (bucket : List TmpGroupData) (v : List Value)
    (i : Nat) (h : findInBucket bucket v = some i) :
    v ∈ bucket.map (·.group) := by
  rcases findInBucket_spec bucket v i h with ⟨g, hg, hv⟩
  have hmem : g ∈ bucket := by
    obtain ⟨hlt, he⟩ := List.getElem?_eq_some.mp hg
    exact he ▸ bucket.getElem_mem hlt
  exact hv ▸ List.mem_map_of_mem (·.group) hmem

/-- An in-place bucket update that keeps every group's key Array keeps the
bucket's key Arrays. -/
theorem updateAt_map_group (f : TmpGroupData → TmpGroupData)
    (hf : ∀ g, (f g).group = g.group) :
    ∀ (l : List TmpGroupData) (i : Nat),
      (updateAt l i f).map (·.group) = l.map (·.group) := by
  intro l
  induction l with
  | nil => intro i; rfl
  | cons g rest ih =>
      intro i
      cases i with
      | zero => simp [updateAt, hf]
      | succ n => simp [updateAt, ih n]

/-- Reduction of `groupsAppendAgg` on a missing bucket. -/
theorem groupsAppendAgg_none (gs : Groups) (h i : Nat) (key : String)
    (v : Value) (hb : bucketsLookup gs.buckets h = none) :
    groupsAppendAgg gs h i key v = gs := by
  unfold groupsAppendAgg
  rw [hb]

/-- Reduction of `groupsAppendAgg` on an existing bucket. -/
theorem groupsAppendAgg_some (gs : Groups) (h i : Nat) (key : String)
    (v : Value) (bucket : List TmpGroupData)
    (hb : bucketsLookup gs.buckets h = some bucket) :
    groupsAppendAgg gs h i key v =
      ⟨bucketsSet gs.buckets h (updateAt bucket i (appendAggFn key v)),
        gs.groupKeys⟩ := by
  unfold groupsAppendAgg
  rw [hb]

/-- `groupsAppendAgg` changes only a group's collected aggregate inputs:
the group keys, every bucket's key Arrays and bucket existence are
untouched. -/
theorem groupsAppendAgg_shape (gs : Groups) (h i : Nat) (key : String)
    (v : Value) :
    (groupsAppendAgg gs h i key v).groupKeys = gs.groupKeys ∧
    (∀ h', bucketGroups (groupsAppendAgg gs h i key v) h' =
      bucketGroups gs h') ∧
    (∀ h', bucketsLookup (groupsAppendAgg gs h i key v).buckets h' = none ↔
      bucketsLookup gs.buckets h' = none) := by
  cases hb : bucketsLookup gs.buckets h with
  | none =>
      rw [groupsAppendAgg_none gs h i key v hb]
      exact ⟨rfl, fun _ => rfl, fun _ => Iff.rfl⟩
  | some bucket =>
      rw [groupsAppendAgg_some gs h i key v bucket hb]
      refine ⟨rfl, ?_, ?_⟩
      · intro h'
        show ((bucketsLookup
            (bucketsSet gs.buckets h (updateAt bucket i (appendAggFn key v)))
            h').getD []).map (·.group) = bucketGroups gs h'
        rw [bucketsLookup_set]
        by_cases hh : h' = h
        · rw [if_pos hh, hh]
          unfold bucketGroups
          rw [hb]
          simp only [Option.getD_some]
          exact updateAt_map_group (appendAggFn key v) (fun g => rfl) bucket i
        · rw [if_neg hh]
          rfl
      · intro h'
        show (bucketsLookup
            (bucketsSet gs.buckets h (updateAt bucket i (appendAggFn key v)))
            h' = none ↔ bucketsLookup gs.buckets h' = none)
        rw [bucketsLookup_set]
        by_cases hh : h' = h
        · rw [if_pos hh, hh, hb]
          simp
        · rw [if_neg hh]

/-- `evalAggInputs` preserves the group keys, every bucket's key Arrays and
bucket existence. -/
theorem evalAggInputs_shape (input : VMap) (h i : Nat) :
    ∀ (allAgg : List (String × Evaluator)) (gs : Groups),
      (evalAggInputs allAgg input gs h i).1.groupKeys = gs.groupKeys ∧
      (∀ h', bucketGroups (evalAggInputs allAgg input gs h i).1 h' =
        bucketGroups gs h') ∧
      (∀ h', bucketsLookup (evalAggInputs allAgg input gs h i).1.buckets h' =
          none ↔ bucketsLookup gs.buckets h' = none) := by
  intro allAgg
  induction allAgg with
  | nil => intro gs; exact ⟨rfl, fun _ => rfl, fun _ => Iff.rfl⟩
  | cons kv rest ih =>
      intro gs
      unfold evalAggInputs
      cases kv.2 input with
      | error e => exact ⟨rfl, fun _ => rfl, fun _ => Iff.rfl⟩
      | ok v =>
          obtain ⟨ha1, ha2, ha3⟩ := groupsAppendAgg_shape gs h i kv.1 v
          obtain ⟨hb1, hb2, hb3⟩ := ih (groupsAppendAgg gs h i kv.1 v)
          exact ⟨hb1.trans ha1, fun h' => (hb2 h').trans (ha2 h'),
            fun h' => (hb3 h').trans (ha3 h')⟩

/-- Invariance of `GInv` under shape-preserving groups updates. -/
theorem GInv_of_shape (pairs : List (Nat × List Value)) (gs gs' : Groups)
    (hk : gs'.groupKeys = gs.groupKeys)
    (hbg : ∀ h, bucketGroups gs' h = bucketGroups gs h)
    (hex : ∀ h, bucketsLookup gs'.buckets h = none ↔
      bucketsLookup gs.buckets h = none)
    (hinv : GInv pairs gs) : GInv pairs gs' := by
  obtain ⟨h1, h2, h3⟩ := hinv
  exact ⟨hk.trans h1, fun h => (hbg h).trans (h2 h),
    fun h => (hex h).trans (h3 h)⟩

/-- Reduction of `findOrCreateGroup` when the hash has no bucket yet: a new
singleton bucket is created and the hash is appended to `groupKeys`. -/
theorem findOrCreateGroup_newBucket (projs : List Projection) (gs : Groups)
    (v : List Value) (h : Nat) (nag : VMap)
    (hb : bucketsLookup gs.buckets h = none) :
    findOrCreateGroup projs gs v h nag =
      (⟨bucketsSet gs.buckets h [mkGroup projs v nag],
        gs.groupKeys ++ [h]⟩, h, 0) := by
  unfold findOrCreateGroup
  rw [hb]

/-- One dispatch preserves the first-seen invariant, extending the processed
pairs by the dispatched (hash, key Array). -/
theorem GInv_step (projs : List Projection)
    (pairs : List (Nat × List Value)) (gs : Groups) (v : List Value)
    (h : Nat) (nag : VMap) (hinv : GInv pairs gs) :
    GInv (pairs ++ [(h, v)]) (findOrCreateGroup projs gs v h nag).1 := by
  obtain ⟨h1, h2, h3⟩ := hinv
  have hmap : (pairs ++ [(h, v)]).map Prod.fst = pairs.map Prod.fst ++ [h] := by
    simp
  cases hb : bucketsLookup gs.buckets h with
  | none =>
      rw [findOrCreateGroup_newBucket projs gs v h nag hb]
      have hnot : h ∉ pairs.map Prod.fst := (h3 h).mp hb
      refine ⟨?_, ?_, ?_⟩
      · show gs.groupKeys ++ [h] =
          firstSeenHashes ((pairs ++ [(h, v)]).map Prod.fst)
        rw [hmap, firstSeenHashes_snoc, if_neg hnot, h1]
      · intro h'
        show ((bucketsLookup
            (bucketsSet gs.buckets h [mkGroup projs v nag]) h').getD
            []).map (·.group) = firstSeenValuesFor h' (pairs ++ [(h, v)])
        rw [bucketsLookup_set, firstSeenValuesFor_snoc h' pairs h v]
        by_cases hh : h' = h
        · rw [if_pos hh, if_pos hh.symm]
          have hempty : firstSeenValuesFor h' pairs = [] := by
            rw [← h2 h']
            unfold bucketGroups
            rw [hh, hb]
            rfl
          rw [hempty]
          simp [mkGroup]
        · rw [if_neg hh, if_neg (fun hc => hh hc.symm)]
          exact h2 h'
      · intro h'
        show bucketsLookup
            (bucketsSet gs.buckets h [mkGroup projs v nag]) h' = none ↔
          h' ∉ (pairs ++ [(h, v)]).map Prod.fst
        rw [bucketsLookup_set, hmap]
        by_cases hh : h' = h
        · rw [if_pos hh]
          simp [hh]
        · rw [if_neg hh, h3 h']
          simp [hh]
  | some bucket =>
      have hmem : h ∈ pairs.map Prod.fst := by
        by_contra hc
        rw [(h3 h).mpr hc] at hb
        exact Option.noConfusion hb
      have hkeys : firstSeenHashes ((pairs ++ [(h, v)]).map Prod.fst) =
          firstSeenHashes (pairs.map Prod.fst) := by
        rw [hmap, firstSeenHashes_snoc, if_pos hmem]
      cases hf : findInBucket bucket v with
      | some i =>
          rw [findOrCreateGroup_found projs gs v h nag bucket i hb hf]
          refine ⟨?_, ?_, ?_⟩
          · rw [hkeys]
            exact h1
          · intro h'
            rw [firstSeenValuesFor_snoc h' pairs h v]
            by_cases hh : h = h'
            · rw [if_pos hh]
              have hv : v ∈ firstSeenValuesFor h' pairs := by
                rw [← h2 h']
                unfold bucketGroups
                rw [← hh, hb]
                exact findInBucket_some_mem bucket v i hf
              rw [if_pos hv]
              exact h2 h'
            · rw [if_neg hh]
              exact h2 h'
          · intro h'
            rw [hmap, h3 h']
            constructor
            · intro hn
              simp only [List.mem_append, List.mem_singleton]
              rintro (hc | hc)
              · exact hn hc
              · exact hn (hc ▸ hmem)
            · intro hn hc
              exact hn (by simp [hc])
      | none =>
          rw [findOrCreateGroup_notFound projs gs v h nag bucket hb hf]
          refine ⟨?_, ?_, ?_⟩
          · show gs.groupKeys =
              firstSeenHashes ((pairs ++ [(h, v)]).map Prod.fst)
            rw [hkeys]
            exact h1
          · intro h'
            show ((bucketsLookup (bucketsSet gs.buckets h
                (bucket ++ [mkGroup projs v nag])) h').getD
                []).map (·.group) = firstSeenValuesFor h' (pairs ++ [(h, v)])
            rw [bucketsLookup_set, firstSeenValuesFor_snoc h' pairs h v]
            by_cases hh : h' = h
            · rw [if_pos hh, if_pos hh.symm]
              have hbg : firstSeenValuesFor h' pairs = bucket.map (·.group) := by
                rw [← h2 h']
                unfold bucketGroups
                rw [hh, hb]
                rfl
              have hv : v ∉ firstSeenValuesFor h' pairs := by
                rw [hbg]
                exact (findInBucket_none_iff v bucket).mp hf
              rw [if_neg hv, hbg]
              simp [mkGroup]
            · rw [if_neg hh, if_neg (fun hc => hh hc.symm)]
              exact h2 h'
          · intro h'
            show bucketsLookup (bucketsSet gs.buckets h
                (bucket ++ [mkGroup projs v nag])) h' = none ↔
              h' ∉ (pairs ++ [(h, v)]).map Prod.fst
            rw [bucketsLookup_set, hmap]
            by_cases hh : h' = h
            · rw [if_pos hh]
              simp [hh]
            · rw [if_neg hh, h3 h']
              simp [hh]

/-- Reduction of `computeKey` on a cached Array. -/
theorem computeKey_eq_cache (hashFn : Value → Nat) (gl : List Evaluator)
    (r : InputRow) (c : Value) (vs0 : List Value) (hc : r.cache = some c)
    (ha : AsArray c = .ok vs0) :
    computeKey hashFn gl r = .ok (vs0, r) := by
  unfold computeKey
  rw [hc]
  show (match AsArray c with
    | .ok vs => Except.ok (vs, r)
    | .error _ => Except.error "cached data was not an array") =
      Except.ok (vs0, r)
  rw [ha]

/-- Reduction of `computeKey` on a non-Array cache. -/
theorem computeKey_eq_cacheErr (hashFn : Value → Nat) (gl : List Evaluator)
    (r : InputRow) (c : Value) (e : String) (hc : r.cache = some c)
    (ha : AsArray c = .error e) :
    computeKey hashFn gl r = .error "cached data was not an array" := by
  unfold computeKey
  rw [hc]
  show (match AsArray c with
    | .ok vs => Except.ok (vs, r)
    | .error _ => Except.error "cached data was not an array") =
      Except.error "cached data was not an array"
  rw [ha]

/-- Reduction of `computeKey` without a cache, on successful GROUP BY
evaluation: the key Array and its hash are cached on the row. -/
theorem computeKey_eq_fresh (hashFn : Value → Nat) (gl : List Evaluator)
    (r : InputRow) (vs0 : List Value) (hc : r.cache = none)
    (he : evalGroupValues gl r.input = .ok vs0) :
    computeKey hashFn gl r =
      .ok (vs0,
        { r with cache := some (.array vs0), hash := hashFn (.array vs0) }) := by
  unfold computeKey
  rw [hc]
  show (match evalGroupValues gl r.input with
    | .error e => Except.error e
    | .ok vs =>
        Except.ok (vs,
          { r with cache := some (.array vs), hash := hashFn (.array vs) })) =
      Except.ok (vs0,
        { r with cache := some (.array vs0), hash := hashFn (.array vs0) })
  rw [he]

/-- Reduction of `computeKey` without a cache, on failing GROUP BY
evaluation. -/
theorem computeKey_eq_freshErr (hashFn : Value → Nat) (gl : List Evaluator)
    (r : InputRow) (e : String) (hc : r.cache = none)
    (he : evalGroupValues gl r.input = .error e) :
    computeKey hashFn gl r = .error e := by
  unfold computeKey
  rw [hc]
  show (match evalGroupValues gl r.input with
    | .error e => Except.error e
    | .ok vs =>
        Except.ok (vs,
          { r with cache := some (.array vs), hash := hashFn (.array vs) })) =
      Except.error e
  rw [he]

/-- A successful group-key computation: the row's input is untouched, the
returned row's cached key is exactly the computed one, and recomputing on
the returned row is stable (the cache branch reproduces the same key and
hash). -/
theorem computeKey_ok (hashFn : Value → Nat) (gl : List Evaluator)
    (r : InputRow) (vs : List Value) (r' : InputRow)
    (h : computeKey hashFn gl r = .ok (vs, r')) :
    r'.input = r.input ∧ cachedKey r' = (r'.hash, vs) ∧
    computeKey hashFn gl r' = .ok (vs, r') := by
  cases hc : r.cache with
  | some c =>
      cases ha : AsArray c with
      | error e =>
          rw [computeKey_eq_cacheErr hashFn gl r c e hc ha] at h
          exact absurd h (by simp)
      | ok vs0 =>
          rw [computeKey_eq_cache hashFn gl r c vs0 hc ha] at h
          injection h with h1
          have hvs : vs0 = vs := congrArg Prod.fst h1
          have hr : r = r' := congrArg Prod.snd h1
          subst hvs
          subst hr
          have hca : c = .array vs0 := by
            cases c <;> simp_all [AsArray]
          refine ⟨rfl, ?_, ?_⟩
          · unfold cachedKey
            rw [hc, hca]
          · exact computeKey_eq_cache hashFn gl r c vs0 hc ha
  | none =>
      cases he : evalGroupValues gl r.input with
      | error e =>
          rw [computeKey_eq_freshErr hashFn gl r e hc he] at h
          exact absurd h (by simp)
      | ok vs0 =>
          rw [computeKey_eq_fresh hashFn gl r vs0 hc he] at h
          injection h with h1
          have hvs : vs0 = vs := congrArg Prod.fst h1
          have hr : ({ r with cache := some (Value.array vs0), hash := hashFn (Value.array vs0) } : InputRow) = r' := congrArg Prod.snd h1
          subst hvs
          refine ⟨by rw [← hr], ?_, ?_⟩
          · unfold cachedKey
            rw [← hr]
          · have hc' : r'.cache = some (.array vs0) := by rw [← hr]
            exact computeKey_eq_cache hashFn gl r' (.array vs0) vs0 hc' rfl

/-- Reduction of `evalItem` on a successful key computation. -/
theorem evalItem_ok_eq (hashFn : Value → Nat) (gl : List Evaluator)
    (projs : List Projection) (allAgg : List (String × Evaluator))
    (gs : Groups) (r : InputRow) (vs : List Value) (r' : InputRow)
    (hk : computeKey hashFn gl r = .ok (vs, r')) :
    evalItem hashFn gl projs allAgg gs r =
      (r',
        (evalAggInputs allAgg r'.input
          (findOrCreateGroup projs gs vs r'.hash r'.input).1
          (findOrCreateGroup projs gs vs r'.hash r'.input).2.1
          (findOrCreateGroup projs gs vs r'.hash r'.input).2.2).1,
        (evalAggInputs allAgg r'.input
          (findOrCreateGroup projs gs vs r'.hash r'.input).1
          (findOrCreateGroup projs gs vs r'.hash r'.input).2.1
          (findOrCreateGroup projs gs vs r'.hash r'.input).2.2).2) := by
  unfold evalItem
  rw [hk]

/-- Reduction of `evalItem` on a failing key computation. -/
theorem evalItem_err_eq (hashFn : Value → Nat) (gl : List Evaluator)
    (projs : List Projection) (allAgg : List (String × Evaluator))
    (gs : Groups) (r : InputRow) (e : String)
    (hk : computeKey hashFn gl r = .error e) :
    evalItem hashFn gl projs allAgg gs r = (r, gs, some e) := by
  unfold evalItem
  rw [hk]

/-- A successful `evalItem` is idempotent on the returned row: re-running it
from the same groups state reproduces the same row, state and success. -/
theorem evalItem_idem (hashFn : Value → Nat) (gl : List Evaluator)
    (projs : List Projection) (allAgg : List (String × Evaluator))
    (gs : Groups) (r r' : InputRow) (gs' : Groups)
    (h : evalItem hashFn gl projs allAgg gs r = (r', gs', none)) :
    evalItem hashFn gl projs allAgg gs r' = (r', gs', none) := by
  cases hk : computeKey hashFn gl r with
  | error e =>
      rw [evalItem_err_eq hashFn gl projs allAgg gs r e hk] at h
      simp at h
  | ok p =>
      obtain ⟨vs, row'⟩ := p
      rw [evalItem_ok_eq hashFn gl projs allAgg gs r vs row' hk] at h
      obtain ⟨-, -, hk2⟩ := computeKey_ok hashFn gl r vs row' hk
      have hr : row' = r' := congrArg Prod.fst h
      subst hr
      rw [evalItem_ok_eq hashFn gl projs allAgg gs row' vs row' hk2]
      exact h

/-- Reduction of `evalItems` on a cons cell whose head fails. -/
theorem evalItems_cons_err (hashFn : Value → Nat) (gl : List Evaluator)
    (projs : List Projection) (allAgg : List (String × Evaluator))
    (gs : Groups) (r : InputRow) (rest : List InputRow) (r1 : InputRow)
    (gs1 : Groups) (e : String)
    (hi : evalItem hashFn gl projs allAgg gs r = (r1, gs1, some e)) :
    evalItems hashFn gl projs allAgg (r :: rest) gs =
      (r1 :: rest, gs1, some e) := by
  unfold evalItems
  rw [hi]

/-- Reduction of `evalItems` on a cons cell whose head succeeds. -/
theorem evalItems_cons_ok (hashFn : Value → Nat) (gl : List Evaluator)
    (projs : List Projection) (allAgg : List (String × Evaluator))
    (gs : Groups) (r : InputRow) (rest : List InputRow) (r1 : InputRow)
    (gs1 : Groups)
    (hi : evalItem hashFn gl projs allAgg gs r = (r1, gs1, none)) :
    evalItems hashFn gl projs allAgg (r :: rest) gs =
      (r1 :: (evalItems hashFn gl projs allAgg rest gs1).1,
        (evalItems hashFn gl projs allAgg rest gs1).2.1,
        (evalItems hashFn gl projs allAgg rest gs1).2.2) := by
  conv_lhs => unfold evalItems
  rw [hi]

/-- The dispatch loop maintains the first-seen invariant: on success, the
groups state realizes the spec order of the processed rows' cached keys. -/
theorem evalItems_GInv (hashFn : Value → Nat) (gl : List Evaluator)
    (projs : List Projection) (allAgg : List (String × Evaluator)) :
    ∀ (rows : List InputRow) (gs : Groups) (rows' : List InputRow)
      (gs' : Groups) (pairs : List (Nat × List Value)),
      GInv pairs gs →
      evalItems hashFn gl projs allAgg rows gs = (rows', gs', none) →
      GInv (pairs ++ rows'.map cachedKey) gs' := by
  intro rows
  induction rows with
  | nil =>
      intro gs rows' gs' pairs hinv h
      unfold evalItems at h
      obtain ⟨h1, h2⟩ : rows' = [] ∧ gs' = gs := by
        refine ⟨(congrArg Prod.fst h).symm, ?_⟩
        have := congrArg Prod.snd h
        exact (congrArg Prod.fst this).symm
      subst h1
      subst h2
      simpa using hinv
  | cons r rest ih =>
      intro gs rows' gs' pairs hinv h
      cases hi : evalItem hashFn gl projs allAgg gs r with
      | mk r1 rest1 =>
        obtain ⟨gs1, e1⟩ := rest1
        cases e1 with
        | some e =>
            rw [evalItems_cons_err hashFn gl projs allAgg gs r rest r1 gs1 e
              hi] at h
            simp at h
        | none =>
            rw [evalItems_cons_ok hashFn gl projs allAgg gs r rest r1 gs1
              hi] at h
            have hrows' : rows' =
                r1 :: (evalItems hashFn gl projs allAgg rest gs1).1 :=
              (congrArg Prod.fst h).symm
            have hgs' : gs' =
                (evalItems hashFn gl projs allAgg rest gs1).2.1 := by
              have h2 := congrArg Prod.snd h
              exact (congrArg Prod.fst h2).symm
            have herr : (evalItems hashFn gl projs allAgg rest gs1).2.2 =
                none := by
              have h2 := congrArg Prod.snd h
              exact congrArg Prod.snd h2
            cases hk : computeKey hashFn gl r with
            | error e =>
                rw [evalItem_err_eq hashFn gl projs allAgg gs r e hk] at hi
                simp at hi
            | ok p =>
                obtain ⟨vs, row'⟩ := p
                rw [evalItem_ok_eq hashFn gl projs allAgg gs r vs row'
                  hk] at hi
                have hr1 : row' = r1 := congrArg Prod.fst hi
                have hgs1 : (evalAggInputs allAgg row'.input
                    (findOrCreateGroup projs gs vs row'.hash row'.input).1
                    (findOrCreateGroup projs gs vs row'.hash row'.input).2.1
                    (findOrCreateGroup projs gs vs row'.hash
                      row'.input).2.2).1 = gs1 := by
                  have h2 := congrArg Prod.snd hi
                  exact congrArg Prod.fst h2
                obtain ⟨-, hck, -⟩ := computeKey_ok hashFn gl r vs row' hk
                have hstep := GInv_step projs pairs gs vs row'.hash
                  row'.input hinv
                obtain ⟨hs1, hs2, hs3⟩ := evalAggInputs_shape row'.input
                  (findOrCreateGroup projs gs vs row'.hash row'.input).2.1
                  (findOrCreateGroup projs gs vs row'.hash row'.input).2.2
                  allAgg
                  (findOrCreateGroup projs gs vs row'.hash row'.input).1
                have hinv1 : GInv (pairs ++ [(row'.hash, vs)]) gs1 := by
                  rw [← hgs1]
                  exact GInv_of_shape _ _ _ hs1 hs2 hs3 hstep
                have hrec := ih gs1
                  (evalItems hashFn gl projs allAgg rest gs1).1
                  (evalItems hashFn gl projs allAgg rest gs1).2.1
                  (pairs ++ [(row'.hash, vs)]) hinv1
                  (by rw [← herr])
                rw [hrows', hgs', ← hr1]
                simpa [hck, List.append_assoc] using hrec

/-- The empty groups state realizes the empty pair list. -/
theorem GInv_empty : GInv [] Groups.empty := by
  refine ⟨rfl, fun h => rfl, fun h => ?_⟩
  simp [Groups.empty, bucketsLookup]

/-- A groups state satisfying the invariant traverses its groups exactly in
the specified first-seen order. -/
theorem GInv_traversal (pairs : List (Nat × List Value)) (gs : Groups)
    (hinv : GInv pairs gs) : groupsTraversal gs = specGroupOrder pairs := by
  obtain ⟨h1, h2, -⟩ := hinv
  unfold groupsTraversal specGroupOrder
  rw [h1]
  have hgen : ∀ ks : List Nat,
      (ks.flatMap (fun h' => (bucketGroups gs h').map (fun v => (h', v)))) =
        ks.flatMap
          (fun h' => (firstSeenValuesFor h' pairs).map (fun v => (h', v))) := by
    intro ks
    induction ks with
    | nil => rfl
    | cons k rest ih => simp [h2 k, ih]
  exact hgen _

/-- Re-running the dispatch loop on the rows it returned, from the same
initial groups state, reproduces the same rows and groups. -/
theorem evalItems_idem (hashFn : Value → Nat) (gl : List Evaluator)
    (projs : List Projection) (allAgg : List (String × Evaluator)) :
    ∀ (rows : List InputRow) (gs : Groups) (rows' : List InputRow)
      (gs' : Groups),
      evalItems hashFn gl projs allAgg rows gs = (rows', gs', none) →
      evalItems hashFn gl projs allAgg rows' gs = (rows', gs', none) := by
  intro rows
  induction rows with
  | nil =>
      intro gs rows' gs' h
      unfold evalItems at h
      have h1 : rows' = [] := (congrArg Prod.fst h).symm
      have h2 : gs' = gs := by
        have := congrArg Prod.snd h
        exact (congrArg Prod.fst this).symm
      subst h1
      subst h2
      exact h
  | cons r rest ih =>
      intro gs rows' gs' h
      cases hi : evalItem hashFn gl projs allAgg gs r with
      | mk r1 rest1 =>
        obtain ⟨gs1, e1⟩ := rest1
        cases e1 with
        | some e =>
            rw [evalItems_cons_err hashFn gl projs allAgg gs r rest r1 gs1 e
              hi] at h
            simp at h
        | none =>
            rw [evalItems_cons_ok hashFn gl projs allAgg gs r rest r1 gs1
              hi] at h
            have hrows' : rows' =
                r1 :: (evalItems hashFn gl projs allAgg rest gs1).1 :=
              (congrArg Prod.fst h).symm
            have hgs' : gs' =
                (evalItems hashFn gl projs allAgg rest gs1).2.1 := by
              have h2 := congrArg Prod.snd h
              exact (congrArg Prod.fst h2).symm
            have herr : (evalItems hashFn gl projs allAgg rest gs1).2.2 =
                none := by
              have h2 := congrArg Prod.snd h
              exact congrArg Prod.snd h2
            have hrec := ih gs1
              (evalItems hashFn gl projs allAgg rest gs1).1
              (evalItems hashFn gl projs allAgg rest gs1).2.1
              (by rw [← herr])
            have hidem := evalItem_idem hashFn gl projs allAgg gs r r1 gs1 hi
            rw [hrows', hgs']
            rw [evalItems_cons_ok hashFn gl projs allAgg gs r1
              (evalItems hashFn gl projs allAgg rest gs1).1 r1 gs1 hidem]
            rw [hrec, ← herr]

/-- Reduction of `evalBucket` when the head group's evaluation fails. -/
theorem evalBucket_cons_err (hashFn : Value → Nat) (projs : List Projection)
    (allAgg : List (String × Evaluator)) (g : TmpGroupData)
    (rest : List TmpGroupData) (out : RSlice) (e : String)
    (hg : evalGroup hashFn projs allAgg g = .error e) :
    evalBucket hashFn projs allAgg (g :: rest) out = (out, some e) := by
  unfold evalBucket
  rw [hg]

/-- Reduction of `evalBucket` when the head group is filtered out. -/
theorem evalBucket_cons_none (hashFn : Value → Nat) (projs : List Projection)
    (allAgg : List (String × Evaluator)) (g : TmpGroupData)
    (rest : List TmpGroupData) (out : RSlice)
    (hg : evalGroup hashFn projs allAgg g = .ok none) :
    evalBucket hashFn projs allAgg (g :: rest) out =
      evalBucket hashFn projs allAgg rest out := by
  conv_lhs => unfold evalBucket
  rw [hg]

/-- Reduction of `evalBucket` when the head group produces a row. -/
theorem evalBucket_cons_some (hashFn : Value → Nat) (projs : List Projection)
    (allAgg : List (String × Evaluator)) (g : TmpGroupData)
    (rest : List TmpGroupData) (out : RSlice) (r : ResultRow)
    (hg : evalGroup hashFn projs allAgg g = .ok (some r)) :
    evalBucket hashFn projs allAgg (g :: rest) out =
      evalBucket hashFn projs allAgg rest (out.push r) := by
  conv_lhs => unfold evalBucket
  rw [hg]

/-- On success, `evalBucket` appends exactly the rows the bucket's surviving
groups produce, in bucket order. -/
theorem evalBucket_ok_elems (hashFn : Value → Nat) (projs : List Projection)
    (allAgg : List (String × Evaluator)) :
    ∀ (bucket : List TmpGroupData) (out out' : RSlice),
      evalBucket hashFn projs allAgg bucket out = (out', none) →
      out'.elems = out.elems ++ bucket.filterMap
        (fun g => match evalGroup hashFn projs allAgg g with
          | .ok (some r) => some r
          | _ => none) := by
  intro bucket
  induction bucket with
  | nil =>
      intro out out' h
      have : out = out' := congrArg Prod.fst h
      simp [← this]
  | cons g rest ih =>
      intro out out' h
      cases hg : evalGroup hashFn projs allAgg g with
      | error e =>
          rw [evalBucket_cons_err hashFn projs allAgg g rest out e hg] at h
          simp at h
      | ok r0 =>
          cases r0 with
          | none =>
              rw [evalBucket_cons_none hashFn projs allAgg g rest out hg] at h
              rw [List.filterMap_cons]
              simp only [hg]
              exact ih out out' h
          | some r =>
              rw [evalBucket_cons_some hashFn projs allAgg g rest out r
                hg] at h
              rw [List.filterMap_cons]
              simp only [hg]
              have := ih (out.push r) out' h
              simpa [RSlice.push] using this

/-- Reduction of `evalGroups` when the head bucket's evaluation fails. -/
theorem evalGroups_cons_err (hashFn : Value → Nat) (projs : List Projection)
    (allAgg : List (String × Evaluator)) (k : Nat) (rest : List Nat)
    (buckets : List (Nat × List TmpGroupData)) (out out1 : RSlice)
    (e : String)
    (hb : evalBucket hashFn projs allAgg ((bucketsLookup buckets k).getD [])
      out = (out1, some e)) :
    evalGroups hashFn projs allAgg (k :: rest) buckets out =
      (out1, some e) := by
  unfold evalGroups
  rw [hb]

/-- Reduction of `evalGroups` when the head bucket's evaluation succeeds. -/
theorem evalGroups_cons_ok (hashFn : Value → Nat) (projs : List Projection)
    (allAgg : List (String × Evaluator)) (k : Nat) (rest : List Nat)
    (buckets : List (Nat × List TmpGroupData)) (out out1 : RSlice)
    (hb : evalBucket hashFn projs allAgg ((bucketsLookup buckets k).getD [])
      out = (out1, none)) :
    evalGroups hashFn projs allAgg (k :: rest) buckets out =
      evalGroups hashFn projs allAgg rest buckets out1 := by
  conv_lhs => unfold evalGroups
  rw [hb]

/-- On success, `evalGroups` appends exactly the rows the surviving groups
produce, traversing buckets in key order and groups in bucket order. -/
theorem evalGroups_ok_elems (hashFn : Value → Nat) (projs : List Projection)
    (allAgg : List (String × Evaluator))
    (buckets : List (Nat × List TmpGroupData)) :
    ∀ (keys : List Nat) (out out' : RSlice),
      evalGroups hashFn projs allAgg keys buckets out = (out', none) →
      out'.elems = out.elems ++
        (keys.flatMap (fun k => (bucketsLookup buckets k).getD [])).filterMap
          (fun g => match evalGroup hashFn projs allAgg g with
            | .ok (some r) => some r
            | _ => none) := by
  intro keys
  induction keys with
  | nil =>
      intro out out' h
      have : out = out' := congrArg Prod.fst h
      simp [← this]
  | cons k rest ih =>
      intro out out' h
      cases hb : evalBucket hashFn projs allAgg
          ((bucketsLookup buckets k).getD []) out with
      | mk out1 e1 =>
        cases e1 with
        | some e =>
            rw [evalGroups_cons_err hashFn projs allAgg k rest buckets out
              out1 e hb] at h
            simp at h
        | none =>
            rw [evalGroups_cons_ok hashFn projs allAgg k rest buckets out
              out1 hb] at h
            have h1 := evalBucket_ok_elems hashFn projs allAgg
              ((bucketsLookup buckets k).getD []) out out1 hb
            have h2 := ih out1 out' h
            rw [h2, h1]
            simp [List.filterMap_append, List.append_assoc]

/-- The error and emitted rows of `evalBucket` do not depend on the output
slice it starts from (beyond its rows). -/
theorem evalBucket_elems_invariant (hashFn : Value → Nat)
    (projs : List Projection) (allAgg : List (String × Evaluator)) :
    ∀ (bucket : List TmpGroupData) (out out2 : RSlice),
      out.elems = out2.elems →
      (evalBucket hashFn projs allAgg bucket out).2 =
        (evalBucket hashFn projs allAgg bucket out2).2 ∧
      (evalBucket hashFn projs allAgg bucket out).1.elems =
        (evalBucket hashFn projs allAgg bucket out2).1.elems := by
  intro bucket
  induction bucket with
  | nil => intro out out2 he; exact ⟨rfl, he⟩
  | cons g rest ih =>
      intro out out2 he
      cases hg : evalGroup hashFn projs allAgg g with
      | error e =>
          rw [evalBucket_cons_err hashFn projs allAgg g rest out e hg,
            evalBucket_cons_err hashFn projs allAgg g rest out2 e hg]
          exact ⟨rfl, he⟩
      | ok r0 =>
          cases r0 with
          | none =>
              rw [evalBucket_cons_none hashFn projs allAgg g rest out hg,
                evalBucket_cons_none hashFn projs allAgg g rest out2 hg]
              exact ih out out2 he
          | some r =>
              rw [evalBucket_cons_some hashFn projs allAgg g rest out r hg,
                evalBucket_cons_some hashFn projs allAgg g rest out2 r hg]
              exact ih (out.push r) (out2.push r) (by
                simp [RSlice.push, he])

/-- The error and emitted rows of `evalGroups` do not depend on the output
slice it starts from (beyond its rows). -/
theorem evalGroups_elems_invariant (hashFn : Value → Nat)
    (projs : List Projection) (allAgg : List (String × Evaluator))
    (buckets : List (Nat × List TmpGroupData)) :
    ∀ (keys : List Nat) (out out2 : RSlice),
      out.elems = out2.elems →
      (evalGroups hashFn projs allAgg keys buckets out).2 =
        (evalGroups hashFn projs allAgg keys buckets out2).2 ∧
      (evalGroups hashFn projs allAgg keys buckets out).1.elems =
        (evalGroups hashFn projs allAgg keys buckets out2).1.elems := by
  intro keys
  induction keys with
  | nil => intro out out2 he; exact ⟨rfl, he⟩
  | cons k rest ih =>
      intro out out2 he
      obtain ⟨hb2, hb1⟩ := evalBucket_elems_invariant hashFn projs allAgg
        ((bucketsLookup buckets k).getD []) out out2 he
      cases hb : evalBucket hashFn projs allAgg
          ((bucketsLookup buckets k).getD []) out with
      | mk out1 e1 =>
        cases hb' : evalBucket hashFn projs allAgg
            ((bucketsLookup buckets k).getD []) out2 with
        | mk out1' e1' =>
          rw [hb, hb'] at hb2 hb1
          simp only at hb2 hb1
          cases e1 with
          | some e =>
              rw [evalGroups_cons_err hashFn projs allAgg k rest buckets out
                out1 e hb]
              rw [← hb2] at hb'
              rw [evalGroups_cons_err hashFn projs allAgg k rest buckets out2
                out1' e hb']
              exact ⟨rfl, hb1⟩
          | none =>
              rw [evalGroups_cons_ok hashFn projs allAgg k rest buckets out
                out1 hb]
              rw [← hb2] at hb'
              rw [evalGroups_cons_ok hashFn projs allAgg k rest buckets out2
                out1' hb']
              exact ih out1 out1' hb1

/-- Claim C2: the grouping operator's output order is deterministic.  After
a successful dispatch phase the groups are traversed exactly in the
map-free specification order — first-seen hash, then first-seen key Array
within a hash (`specGroupOrder`) — so the order does not depend on any hash
map iteration; on success the emitted rows are exactly those of the
surviving traversed groups in that order; and re-evaluating the unchanged
window (the evaluators being pure functions) succeeds again with an
identical output row sequence. -/
theorem deterministic_group_order :
    (∀ (hashFn : Value → Nat) (gl : List Evaluator)
      (projs : List Projection) (allAgg : List (String × Evaluator))
      (rows rows' : List InputRow) (gs' : Groups),
      evalItems hashFn gl projs allAgg rows Groups.empty =
        (rows', gs', none) →
      groupsTraversal gs' = specGroupOrder (rows'.map cachedKey)) ∧
    (∀ (hashFn : Value → Nat) (projs : List Projection)
      (allAgg : List (String × Evaluator)) (gs : Groups)
      (out out' : RSlice),
      evalGroups hashFn projs allAgg gs.groupKeys gs.buckets out =
        (out', none) →
      out'.elems = out.elems ++ (traversalGroups gs).filterMap
        (fun g => match evalGroup hashFn projs allAgg g with
          | .ok (some r) => some r
          | _ => none)) ∧
    (∀ (hashFn : Value → Nat) (ep ep1 : PlanState),
      performQueryOnBuffer hashFn ep = (ep1, none) →
      (performQueryOnBuffer hashFn ep1).2 = none ∧
      (performQueryOnBuffer hashFn ep1).1.curResults.elems =
        ep1.curResults.elems) := by
  refine ⟨?_, ?_, ?_⟩
  · intro hashFn gl projs allAgg rows rows' gs' h
    have hinv := evalItems_GInv hashFn gl projs allAgg rows Groups.empty
      rows' gs' [] GInv_empty h
    simpa using GInv_traversal (rows'.map cachedKey) gs' (by simpa using hinv)
  · intro hashFn projs allAgg gs out out' h
    exact evalGroups_ok_elems hashFn projs allAgg gs.buckets gs.groupKeys
      out out' h
  · intro hashFn ep ep1 hrun
    cases hI : evalItems hashFn ep.groupList ep.projections
        (allAggEvaluators ep.projections) ep.filteredInputRows
        Groups.empty with
    | mk rows' rest1 =>
      obtain ⟨gs, eI⟩ := rest1
      cases eI with
      | some e =>
          rw [performQueryOnBuffer_itemsError hashFn ep rows' gs e hI] at hrun
          exact absurd (congrArg Prod.snd hrun) (by simp)
      | none =>
        cases hG : evalGroups hashFn ep.projections
            (allAggEvaluators ep.projections) gs.groupKeys gs.buckets
            ⟨ep.prevResults.backing, []⟩ with
        | mk out1 eG =>
          cases eG with
          | some e =>
              rw [performQueryOnBuffer_groupsError hashFn ep rows' gs out1 e
                hI hG] at hrun
              exact absurd (congrArg Prod.snd hrun) (by simp)
          | none =>
            have hI2 := evalItems_idem hashFn ep.groupList ep.projections
              (allAggEvaluators ep.projections) ep.filteredInputRows
              Groups.empty rows' gs hI
            obtain ⟨hGeq, hGel⟩ := evalGroups_elems_invariant hashFn
              ep.projections (allAggEvaluators ep.projections) gs.buckets
              gs.groupKeys ⟨ep.curResults.backing, []⟩
              ⟨ep.prevResults.backing, []⟩ rfl
            cases hG2 : evalGroups hashFn ep.projections
                (allAggEvaluators ep.projections) gs.groupKeys gs.buckets
                ⟨ep.curResults.backing, []⟩ with
            | mk out2 e2 =>
              rw [hG, hG2] at hGeq hGel
              simp only at hGeq hGel
              rw [hGeq] at hG2
              by_cases hemp : gs.buckets.isEmpty
              · cases hN : evalNoGroup hashFn ep.groupList ep.projections with
                | error e =>
                    rw [performQueryOnBuffer_noGroupError hashFn ep rows' gs
                      out1 e hI hG hemp hN] at hrun
                    exact absurd (congrArg Prod.snd hrun) (by simp)
                | ok r =>
                    cases r with
                    | none =>
                        rw [performQueryOnBuffer_noGroupOkNone hashFn ep
                          rows' gs out1 hI hG hemp hN] at hrun
                        have hep1 : ep1 =
                            { ep with
                                filteredInputRows := rows',
                                prevResults := ep.curResults,
                                curResults := out1 } :=
                          (congrArg Prod.fst hrun).symm
                        subst hep1
                        rw [performQueryOnBuffer_noGroupOkNone hashFn
                          { ep with
                              filteredInputRows := rows',
                              prevResults := ep.curResults,
                              curResults := out1 }
                          rows' gs out2 hI2 hG2 hemp hN]
                        exact ⟨rfl, hGel⟩
                    | some row =>
                        rw [performQueryOnBuffer_noGroupOkSome hashFn ep
                          rows' gs out1 row hI hG hemp hN] at hrun
                        have hep1 : ep1 =
                            { ep with
                                filteredInputRows := rows',
                                prevResults := ep.curResults,
                                curResults := out1.push row } :=
                          (congrArg Prod.fst hrun).symm
                        subst hep1
                        rw [performQueryOnBuffer_noGroupOkSome hashFn
                          { ep with
                              filteredInputRows := rows',
                              prevResults := ep.curResults,
                              curResults := out1.push row }
                          rows' gs out2 row hI2 hG2 hemp hN]
                        refine ⟨rfl, ?_⟩
                        simp [RSlice.push, hGel]
              · rw [performQueryOnBuffer_groupsOk hashFn ep rows' gs out1
                  hI hG (by simpa using hemp)] at hrun
                have hep1 : ep1 =
                    { ep with
                        filteredInputRows := rows',
                        prevResults := ep.curResults,
                        curResults := out1 } :=
                  (congrArg Prod.fst hrun).symm
                subst hep1
                rw [performQueryOnBuffer_groupsOk hashFn
                  { ep with
                      filteredInputRows := rows',
                      prevResults := ep.curResults,
                      curResults := out1 }
                  rows' gs out2 hI2 hG2 (by simpa using hemp)]
                exact ⟨rfl, hGel⟩

/-- Witness for `deterministic_group_order`: the three-row window
`k ∈ {a, b, a}` grouped by `k` under a constant (all-colliding) hash. -/
theorem deterministic_group_order_witness :
    (groupsTraversal
      (evalItems (fun _ => 0)
        [fun m => match VMap.lookup m "k" with
          | some v => .ok v
          | none => .error "no k"] [] []
        [⟨[("k", .str "a")], none, 0⟩, ⟨[("k", .str "b")], none, 0⟩,
          ⟨[("k", .str "a")], none, 0⟩] Groups.empty).2.1 =
      specGroupOrder
        ((evalItems (fun _ => 0)
          [fun m => match VMap.lookup m "k" with
            | some v => .ok v
            | none => .error "no k"] [] []
          [⟨[("k", .str "a")], none, 0⟩, ⟨[("k", .str "b")], none, 0⟩,
            ⟨[("k", .str "a")], none, 0⟩] Groups.empty).1.map cachedKey)) ∧
    (performQueryOnBuffer (fun _ => 0)
      (performQueryOnBuffer (fun _ => 0)
        { projections := []
          groupList := [fun m => match VMap.lookup m "k" with
            | some v => .ok v
            | none => .error "no k"]
          filteredInputRows :=
            [⟨[("k", .str "a")], none, 0⟩, ⟨[("k", .str "b")], none, 0⟩,
              ⟨[("k", .str "a")], none, 0⟩]
          prevResults := ⟨0, []⟩
          curResults := ⟨1, []⟩ }).1).2 = none := by
  constructor
  · refine deterministic_group_order.1 (fun _ => 0)
      [fun m => match VMap.lookup m "k" with
        | some v => .ok v
        | none => .error "no k"] [] []
      [⟨[("k", .str "a")], none, 0⟩, ⟨[("k", .str "b")], none, 0⟩,
        ⟨[("k", .str "a")], none, 0⟩] _ _ ?_
    rfl
  · refine (deterministic_group_order.2.2 (fun _ => 0)
      { projections := []
        groupList := [fun m => match VMap.lookup m "k" with
          | some v => .ok v
          | none => .error "no k"]
        filteredInputRows :=
          [⟨[("k", .str "a")], none, 0⟩, ⟨[("k", .str "b")], none, 0⟩,
            ⟨[("k", .str "a")], none, 0⟩]
        prevResults := ⟨0, []⟩
        curResults := ⟨1, []⟩ } _ ?_).1
    rfl

end SensorBee
